import Mathlib

/-!
Verification of `yandex/resource_yandex_storage_bucket.go`
(terraform-provider-yandex).

The Go file implements the Terraform CRUD adapter for Yandex Object Storage
buckets.  This development shallowly embeds the control flow of the
Create / Read / Update / Delete handlers and the helper functions they use
(`waitConditionStable`, `handleS3BucketNotFoundError`, `isAWSErr`,
`validateS3BucketName`, `storageBucketTaggingNormalize`,
`storageBucketTaggingFromMap`, `NormalizeJsonString`), and proves theorems
about them.

Modelling conventions:
  * Go `error` values are an inductive `GoError`; `nil` errors are `none`
    in an `Option GoError`.
  * Remote calls (S3 / SDK API) are modelled by oracles: records of
    server responses, one slot per call site.  Universally quantifying over
    the oracle quantifies over all possible server behaviour.
  * `*schema.ResourceData` is modelled by `ResourceData`: the resource id
    (`d.Id()` / `d.SetId(...)`), the handful of attributes the control flow
    reads, and the ordered list of attribute names written with `d.Set`
    (attribute *values* do not influence any control flow these claims
    depend on, so only the write is recorded).
  * Retry wrappers (`retryOnAwsCodes`, `retryFlakyS3Responses`,
    `resource.RetryContext`) perform bounded time-based retries of the same
    call; the oracle slot for such a call models the surfaced outcome of
    the whole wrapper.  Wall-clock time and sleeping are not modelled.
-/

namespace StorageBucket

/-! ## Go error values

`GoError` covers the error shapes the bucket code inspects:
`awserr.Error` (code and message), `awserr.RequestFailure`
(an `awserr.Error` that additionally carries an HTTP status code),
gRPC status errors, errors wrapped by `fmt.Errorf(...: %w/%s, err)`,
and everything else. -/

inductive GoError where
  /-- an `awserr.Error` that is not an `awserr.RequestFailure` -/
  | awsErr (code message : String)
  /-- an `awserr.RequestFailure`: code, message, HTTP status code -/
  | awsReqFailure (code message : String) (statusCode : Nat)
  /-- a gRPC `status.Error` with the given code and message -/
  | grpcErr (code : Nat) (message : String)
  /-- an error produced by `fmt.Errorf("context...", err)`; a type
      assertion to `awserr.Error` on such a value fails -/
  | wrapped (context : String) (inner : GoError)
  /-- any other error, e.g. `fmt.Errorf` with no inner error -/
  | other (msg : String)
deriving DecidableEq, Repr

/-- `strings.Contains` on character lists (byte-level details of UTF-8 do
not matter for the codes and messages compared here). -/
def charsContains (haystack needle : List Char) : Bool :=
  match haystack with
  | [] => needle.isEmpty
  | _ :: t => needle.isPrefixOf haystack || charsContains t needle

/-- `strings.Contains` -/
def strContains (s sub : String) : Bool :=
  charsContains s.toList sub.toList

/-- gRPC `codes.NotFound` -/
def codeNotFound : Nat := 5

/-- gRPC `codes.PermissionDenied` -/
def codePermissionDenied : Nat := 7

/-- Source `isAWSErr` (lines 2234-2239): true iff the error is an
`awserr.Error` whose `Code()` equals `code` and whose `Message()` contains
`message`.  A `RequestFailure` is also an `awserr.Error`; a wrapped error
is neither. -/
def isAWSErr (err : GoError) (code message : String) : Bool :=
  match err with
  | .awsErr c m => c == code && strContains m message
  | .awsReqFailure c m _ => c == code && strContains m message
  | _ => false

/-- The type assertion `err.(awserr.RequestFailure)` followed by
`StatusCode() == 404` used in `handleS3BucketNotFoundError` and in the
delete waiter. -/
def isRequestFailureWithStatus (err : GoError) (status : Nat) : Bool :=
  match err with
  | .awsReqFailure _ _ st => st == status
  | _ => false

/-- Modelled from the spec: `isStatusWithCode` is declared outside the
given sources (only its call sites are under `src/`); per the spec it
recognises a gRPC status error with the given code (e.g. "a gRPC NotFound
status"). -/
def isStatusWithCode (err : GoError) (code : Nat) : Bool :=
  match err with
  | .grpcErr c _ => c == code
  | _ => false

/-! ## Resource data -/

/-- The slice of `*schema.ResourceData` the modelled control flow reads
and writes. -/
structure ResourceData where
  /-- `d.Id()` / `d.SetId` -/
  id : String
  /-- the `bucket` attribute; `""` models "not set" (`d.GetOk` false) -/
  bucket : String
  /-- the `folder_id` attribute; `""` models "not set" -/
  folderId : String
  /-- the `force_destroy` attribute -/
  forceDestroy : Bool
  /-- `d.IsNewResource()` -/
  isNewResource : Bool
  /-- names of attributes written with `d.Set`, in write order (attribute
      values never influence the control flow verified here) -/
  attrsSet : List String
deriving DecidableEq, Repr

/-- `d.SetId(s)` -/
def ResourceData.setId (d : ResourceData) (s : String) : ResourceData :=
  { d with id := s }

/-- `d.Set(name, value)`: records the write, dropping the value. -/
def ResourceData.setAttr (d : ResourceData) (name : String) : ResourceData :=
  { d with attrsSet := d.attrsSet ++ [name] }

/-- the condition tested by `handleS3BucketNotFoundError`: an HTTP 404
request failure or a gRPC NotFound status -/
def notFoundStyle (err : GoError) : Bool :=
  isRequestFailureWithStatus err 404 || isStatusWithCode err codeNotFound

/-- Source `handleS3BucketNotFoundError` (lines 2241-2249): on an HTTP 404
request failure or a gRPC NotFound status, clear the resource id and
report `true`; otherwise leave the state alone and report `false`. -/
def handleS3BucketNotFoundError (d : ResourceData) (err : GoError) :
    ResourceData × Bool :=
  if notFoundStyle err then
    (d.setId "", true)
  else
    (d, false)

/-! ## `waitConditionStable` (lines 2109-2129)

The Go function runs up to 12 rounds; each round calls `check` up to 10
times, aborting the round at the first `false`, and returning the error of
the first failing call immediately.  A round whose 10 calls all return
`true` makes the function return `nil`; 12 rounds without such a streak
return `fmt.Errorf("timeout exceeded")`.

The embedding threads a position `pos` into an infinite response stream
`check : Nat → Except GoError Bool` (the i-th invocation's result) and
returns the final position, i.e. the total number of invocations made. -/

/-- The error value `fmt.Errorf("timeout exceeded")`. -/
def timeoutExceeded : GoError := .other "timeout exceeded"

/-- The inner `for subchecks := 0; allOk && subchecks < 10; subchecks++`
loop: `fuel` is `10 - subchecks`. Returns `allOk` (or the first error)
and the stream position after the round. -/
def waitInner (check : Nat → Except GoError Bool) :
    Nat → Bool → Nat → Except GoError Bool × Nat
  | 0, allOk, pos => (.ok allOk, pos)
  | fuel + 1, allOk, pos =>
    if allOk then
      match check pos with
      | .error e => (.error e, pos + 1)
      | .ok ok => waitInner check fuel (allOk && ok) (pos + 1)
    else
      (.ok allOk, pos)

/-- The outer `for checks := 0; checks < 12; checks++` loop: `fuel` is
`12 - checks`. -/
def waitOuter (check : Nat → Except GoError Bool) :
    Nat → Nat → Option GoError × Nat
  | 0, pos => (some timeoutExceeded, pos)
  | fuel + 1, pos =>
    match waitInner check 10 true pos with
    | (.error e, pos') => (some e, pos')
    | (.ok allOk, pos') =>
      if allOk then (none, pos') else waitOuter check fuel pos'

/-- Source `waitConditionStable`.  First component: the returned error
(`none` = `nil`); second: how many times `check` was invoked. -/
def waitConditionStable (check : Nat → Except GoError Bool) :
    Option GoError × Nat :=
  waitOuter check 12 0

/-! ## Delete (`resourceYandexStorageBucketDelete`, lines 1523-1614)

Control flow: delete the bucket (retrying `AccessDenied`/`Forbidden`);
`NoSuchBucket` is success; on `BucketNotEmpty` with `force_destroy`, list
all object versions and delete markers, delete them, and *recurse*; on a
`nil` delete result, wait (via `waitConditionStable`) until `HeadBucket`
stably reports 404; any remaining error is returned wrapped.

The oracle indexes every call by the recursion depth `k` (the k-th
attempt).  The contents of the listed object versions only feed the
subsequent `DeleteObjects` request and never influence control flow, so
the list call is modelled by its error outcome alone.  Because the Go
recursion (line 1592: `return resourceYandexStorageBucketDelete(d, meta)`)
carries no bound, the embedding uses explicit fuel: a `none` result means
the recursion did not return within `fuel` self-calls. -/

/-- Server responses for one run of Delete, indexed by attempt number. -/
structure DeleteResponses where
  /-- outcome of `retryOnAwsCodes([AccessDenied, Forbidden], DeleteBucket)`
      on the k-th attempt (`none` = success) -/
  deleteBucket : Nat → Option GoError
  /-- error outcome of `ListObjectVersions` on the k-th attempt -/
  listObjectVersions : Nat → Option GoError
  /-- error outcome of `DeleteObjects` on the k-th attempt -/
  deleteObjects : Nat → Option GoError
  /-- error outcome of the i-th `HeadBucket` probe of the stability wait
      following a successful delete on attempt k (`none` = bucket still
      answers, i.e. HeadBucket succeeded) -/
  headBucket : Nat → Nat → Option GoError

/-- The check closure passed to `waitConditionStable` after a successful
delete (lines 1600-1606): a 404 request failure means "gone" (`true`);
a successful HeadBucket means "still there" (`false`); any other error is
propagated. -/
def deleteWaitCheck (resp : DeleteResponses) (k : Nat) :
    Nat → Except GoError Bool := fun i =>
  match resp.headBucket k i with
  | some e =>
    if isRequestFailureWithStatus e 404 then .ok true else .error e
  | none => .ok false

/-- Source `resourceYandexStorageBucketDelete`, with explicit fuel for the
unbounded self-call: `none` = no return within `fuel` attempts;
`some (.ok ())` = `nil`; `some (.error e)` = an error return. -/
def bucketDeleteRun (resp : DeleteResponses) (d : ResourceData) :
    Nat → Nat → Option (Except GoError Unit)
  | 0, _ => none
  | fuel + 1, k =>
    match resp.deleteBucket k with
    | some e =>
      if isAWSErr e "NoSuchBucket" "" then
        some (.ok ())
      else if isAWSErr e "BucketNotEmpty" "" && d.forceDestroy then
        match resp.listObjectVersions k with
        | some e' =>
          some (.error (.wrapped "error listing Storage Bucket object versions" e'))
        | none =>
          match resp.deleteObjects k with
          | some e' =>
            some (.error (.wrapped "error force_destroy deleting Storage Bucket" e'))
          | none => bucketDeleteRun resp d fuel (k + 1)
      else
        some (.error (.wrapped "error deleting Storage Bucket" e))
    | none =>
      match (waitConditionStable (deleteWaitCheck resp k)).1 with
      | some e => some (.error (.wrapped "error deleting Storage Bucket" e))
      | none => some (.ok ())

/-- `resourceYandexStorageBucketDelete` terminates on the given responses:
some fuel suffices for the recursion to return. -/
def deleteTerminates (resp : DeleteResponses) (d : ResourceData) : Prop :=
  ∃ fuel r, bucketDeleteRun resp d fuel 0 = some r

/-- Attempt `k` takes the recursive branch: the delete call failed with
`BucketNotEmpty`, `force_destroy` is set, and both the listing and the
bulk object deletion succeeded. -/
def deleteRecursesAt (resp : DeleteResponses) (d : ResourceData) (k : Nat) : Prop :=
  ∃ e, resp.deleteBucket k = some e ∧
    isAWSErr e "NoSuchBucket" "" = false ∧
    (isAWSErr e "BucketNotEmpty" "" && d.forceDestroy) = true ∧
    resp.listObjectVersions k = none ∧
    resp.deleteObjects k = none

instance (resp : DeleteResponses) (d : ResourceData) (k : Nat) :
    Decidable (deleteRecursesAt resp d k) := by
  unfold deleteRecursesAt
  cases resp.deleteBucket k with
  | none => exact isFalse (by simp)
  | some e =>
    simp only [Option.some.injEq]
    exact decidable_of_iff
      (isAWSErr e "NoSuchBucket" "" = false ∧
        (isAWSErr e "BucketNotEmpty" "" && d.forceDestroy) = true ∧
        resp.listObjectVersions k = none ∧ resp.deleteObjects k = none)
      (by constructor
          · rintro ⟨h1, h2, h3, h4⟩; exact ⟨e, rfl, h1, h2, h3, h4⟩
          · rintro ⟨e', rfl, h1, h2, h3, h4⟩; exact ⟨h1, h2, h3, h4⟩)

/-! ## A model of Go `encoding/json` for `NormalizeJsonString`

`NormalizeJsonString` (lines 2746-2762) feeds the input through
`json.Unmarshal` into an `interface{}` and re-serialises it with
`json.Marshal`.  The embedding models:

  * the JSON grammar Go's scanner accepts (whitespace; `null`/`true`/
    `false`; strings with the full escape repertoire including `\uXXXX`
    and surrogate-pair recombination, rejecting raw control characters;
    numbers with Go's leading-zero rule; arrays; objects with
    duplicate-key overwrite);
  * `map[string]interface{}` as a key-sorted association list (Go maps
    are unordered, and `json.Marshal` emits object keys sorted, so the
    sorted list is the canonical representative of the unordered map);
  * `json.Marshal`'s compact output with its default HTML-escaping
    (`<`, `>`, `&`, U+2028, U+2029 and control characters become `\u`
    escapes).

JSON *numbers* land in a Go `float64` and are re-printed by `strconv`
in shortest-round-trip form.  Floating point itself is outside the
embedding; instead the number codec is a parameter (`GoNumModel`) whose
laws state exactly the guarantee Go's `strconv` provides: printing a
stored number yields a numeric literal that lexes back to itself.  The
parser recurses on explicit fuel (`none` = out of fuel); `jUnmarshal`
supplies one unit of fuel per input character plus one, which covers the
grammar because every extra recursion level consumes at least one
character of input. -/

/-- JSON whitespace accepted by Go's scanner. -/
def jIsSpace (c : Char) : Bool :=
  (c == ' ') || ((c == '\t') || ((c == '\r') || (c == '\n')))

/-- drop leading JSON whitespace -/
def jSkipWs : List Char → List Char
  | [] => []
  | c :: r => if jIsSpace c then jSkipWs r else c :: r

/-- ASCII decimal digit -/
def jIsDigit (c : Char) : Bool :=
  '0' ≤ c && c ≤ '9'

/-- split off a maximal run of decimal digits -/
def jTakeDigits : List Char → List Char × List Char
  | [] => ([], [])
  | c :: r =>
    if jIsDigit c then
      let (ds, rest) := jTakeDigits r
      (c :: ds, rest)
    else
      ([], c :: r)

/-- the optional fraction part: `.` followed by one or more digits -/
def jLexFrac (cs : List Char) : Option (List Char × List Char) :=
  match cs with
  | [] => some ([], cs)
  | c :: r =>
    if c == '.' then
      match jTakeDigits r with
      | ([], _) => none
      | (fs, r2) => some ('.' :: fs, r2)
    else some ([], cs)

/-- the optional exponent part: `e`/`E`, optional sign, digits -/
def jLexExp (cs : List Char) : Option (List Char × List Char) :=
  match cs with
  | [] => some ([], cs)
  | c :: r =>
    if c == 'e' || c == 'E' then
      let (esign, r2) : List Char × List Char :=
        match r with
        | s :: r' => if s == '+' || s == '-' then ([s], r') else ([], r)
        | [] => ([], r)
      match jTakeDigits r2 with
      | ([], _) => none
      | (es, r3) => some (c :: (esign ++ es), r3)
    else some ([], cs)

/-- Lex one JSON number literal (Go grammar: optional `-`; `0` or a
nonzero digit followed by digits; optional fraction; optional exponent).
Returns the literal's characters and the rest; `none` if the input does
not start with a well-formed literal. -/
def jLexNumber (cs : List Char) : Option (List Char × List Char) :=
  let (sign, cs1) : List Char × List Char :=
    match cs with
    | c :: r => if c == '-' then (['-'], r) else ([], cs)
    | [] => ([], cs)
  match cs1 with
  | [] => none
  | c :: r =>
    if jIsDigit c then
      let (intPart, cs2) : List Char × List Char :=
        if c == '0' then (['0'], r)
        else
          let (ds, rest) := jTakeDigits r
          (c :: ds, rest)
      match jLexFrac cs2 with
      | none => none
      | some (fracPart, cs3) =>
        match jLexExp cs3 with
        | none => none
        | some (expPart, cs4) =>
          some (sign ++ intPart ++ fracPart ++ expPart, cs4)
    else none

/-- hexadecimal digit value (Go `getu4` accepts both cases) -/
def jHexVal (c : Char) : Option Nat :=
  if '0' ≤ c ∧ c ≤ '9' then
    some (c.toNat - '0'.toNat)
  else if 'a' ≤ c ∧ c ≤ 'f' then
    some (10 + (c.toNat - 'a'.toNat))
  else if 'A' ≤ c ∧ c ≤ 'F' then
    some (10 + (c.toNat - 'A'.toNat))
  else
    none

/-- the value of a `\uXXXX` escape -/
def jHex4 (a b c d : Char) : Option Nat :=
  match jHexVal a, jHexVal b, jHexVal c, jHexVal d with
  | some va, some vb, some vc, some vd =>
    some (((va * 16 + vb) * 16 + vc) * 16 + vd)
  | _, _, _, _ => none

/-- single-character escapes accepted after a backslash -/
def jUnescape : Char → Option Char
  | '"' => some '"'
  | '\\' => some '\\'
  | '/' => some '/'
  | 'b' => some (Char.ofNat 8)
  | 'f' => some (Char.ofNat 12)
  | 'n' => some '\n'
  | 'r' => some '\r'
  | 't' => some '\t'
  | _ => none

/-- prepend a decoded character to a string-lexer result -/
def jConsRes (ch : Char) :
    Option (List Char × List Char) → Option (List Char × List Char)
  | some (s, rest) => some (ch :: s, rest)
  | none => none

/-- Lex one `\uXXXX` escape at the head of the input (Go `getu4`,
including the leading backslash): the escape's value and the rest. -/
def jLexU : List Char → Option (Nat × List Char)
  | '\\' :: 'u' :: a :: b :: c :: d :: r2 =>
    match jHex4 a b c d with
    | some n => some (n, r2)
    | none => none
  | _ => none

/-- Lex a JSON string body after the opening quote (Go `unquoteBytes`):
stop at the closing quote, decode escapes, reject raw control characters;
a `\uXXXX` escape carrying a high surrogate merges with an immediately
following low-surrogate escape, and any unpaired surrogate decodes to
U+FFFD (matching `utf16.DecodeRune` in Go's decoder, which on a failed
pairing emits the replacement character and reprocesses from the second
escape). -/
def jLexStringBody : List Char → Option (List Char × List Char)
  | [] => none
  | c :: r =>
    if c == '"' then some ([], r)
    else if c == '\\' then
      match r with
      | 'u' :: a :: b :: cc :: dd :: r2 =>
        match jHex4 a b cc dd with
        | none => none
        | some n =>
          if 0xD800 ≤ n && n < 0xE000 then
            match hu : jLexU r2 with
            | some (m, r3) =>
              if n < 0xDC00 && (0xDC00 ≤ m && m < 0xE000) then
                jConsRes
                  (Char.ofNat (0x10000 + (n - 0xD800) * 0x400 + (m - 0xDC00)))
                  (jLexStringBody r3)
              else jConsRes (Char.ofNat 0xFFFD) (jLexStringBody r2)
            | none => jConsRes (Char.ofNat 0xFFFD) (jLexStringBody r2)
          else jConsRes (Char.ofNat n) (jLexStringBody r2)
      | e :: r2 =>
        match jUnescape e with
        | some ch => jConsRes ch (jLexStringBody r2)
        | none => none
      | [] => none
    else if c.toNat < 0x20 then none
    else jConsRes c (jLexStringBody r)
termination_by cs => cs.length
decreasing_by
  all_goals simp_all only [List.length_cons]
  all_goals try omega
  have hlen : r3.length + 6 = r2.length := by
    rw [jLexU.eq_def] at hu
    split at hu
    · split at hu
      · simp only [Option.some.injEq, Prod.mk.injEq] at hu
        obtain ⟨-, rfl⟩ := hu
        simp
      · cases hu
    · cases hu
  omega

/-- A remainder that cannot extend a complete number literal: empty or
headed by something that is neither a digit nor `.`, `e`, `E`. -/
def jNumDelim : List Char → Bool
  | [] => true
  | c :: _ => !(jIsDigit c || c == '.' || c == 'e' || c == 'E')

/-- The number half of the `encoding/json` model.  Go stores every JSON
number in a `float64` (`strconv.ParseFloat`) and re-prints it in
shortest-round-trip form (`strconv.AppendFloat`); floating point itself
is not embedded, so the stored type, the literal-to-number map and the
printer are parameters, constrained by exactly the round-trip guarantee
`strconv` provides. -/
structure GoNumModel where
  /-- the type numbers are stored in (Go: `float64`) -/
  Num : Type
  /-- interpret a lexed literal (Go: `strconv.ParseFloat`; `none` models
      its out-of-range error, e.g. on `1e999`) -/
  ofToken : List Char → Option Num
  /-- print a stored number (Go: shortest form that re-parses equal) -/
  print : Num → List Char
  /-- a printed number starts with `-` or a digit -/
  print_head : ∀ n, ∃ c t, print n = c :: t ∧ (c == '-' || jIsDigit c) = true
  /-- a printed number lexes back as one literal, exactly itself -/
  lex_print : ∀ n rest, jNumDelim rest = true →
    jLexNumber (print n ++ rest) = some (print n, rest)
  /-- re-parsing a printed number yields the number itself -/
  ofToken_print : ∀ n, ofToken (print n) = some n

/-- The `interface{}` an `encoding/json` Unmarshal produces: `nil`,
`bool`, a number, `string`, `[]interface{}`, or `map[string]interface{}`.
The map is represented as its key-sorted association list. -/
inductive JVal (ν : Type) where
  | null : JVal ν
  | bool (b : Bool) : JVal ν
  | num (n : ν) : JVal ν
  | str (s : List Char) : JVal ν
  | arr (elems : List (JVal ν)) : JVal ν
  | obj (members : List (List Char × JVal ν)) : JVal ν

/-- strict byte-lexicographic order on keys (Go `sort.Strings` order;
UTF-8 byte order coincides with scalar-value order) -/
def keyLt : List Char → List Char → Bool
  | _, [] => false
  | [], _ :: _ => true
  | a :: as, b :: bs =>
    decide (a.toNat < b.toNat) || (a == b && keyLt as bs)

/-- Insert into the sorted association list representing a Go map:
overwrite an equal key, otherwise keep keys strictly ascending. -/
def objInsert {ν : Type} (k : List Char) (v : JVal ν) :
    List (List Char × JVal ν) → List (List Char × JVal ν)
  | [] => [(k, v)]
  | (k', v') :: rest =>
    if keyLt k k' then (k, v) :: (k', v') :: rest
    else if k == k' then (k, v) :: rest
    else (k', v') :: objInsert k v rest

mutual

/-- Parse one JSON value (Go scanner structure: skip whitespace, then
dispatch on the first character). -/
def jParseVal (M : GoNumModel) : Nat → List Char → Option (JVal M.Num × List Char)
  | 0, _ => none
  | fuel + 1, cs =>
    match jSkipWs cs with
    | 'n' :: 'u' :: 'l' :: 'l' :: r => some (.null, r)
    | 't' :: 'r' :: 'u' :: 'e' :: r => some (.bool true, r)
    | 'f' :: 'a' :: 'l' :: 's' :: 'e' :: r => some (.bool false, r)
    | '"' :: r =>
      match jLexStringBody r with
      | some (s, rest) => some (.str s, rest)
      | none => none
    | '[' :: r =>
      match jSkipWs r with
      | ']' :: r' => some (.arr [], r')
      | cs' =>
        match jParseElems M fuel cs' with
        | some (es, rest) => some (.arr es, rest)
        | none => none
    | '\x7b' :: r =>
      match jSkipWs r with
      | '\x7d' :: r' => some (.obj [], r')
      | cs' =>
        match jParseMembers M fuel [] cs' with
        | some (ms, rest) => some (.obj ms, rest)
        | none => none
    | c :: r =>
      if c == '-' || jIsDigit c then
        match jLexNumber (c :: r) with
        | some (tok, rest) =>
          match M.ofToken tok with
          | some n => some (.num n, rest)
          | none => none
        | none => none
      else none
    | [] => none

/-- Parse the non-empty element list of an array (after `[`). -/
def jParseElems (M : GoNumModel) : Nat → List Char → Option (List (JVal M.Num) × List Char)
  | 0, _ => none
  | fuel + 1, cs =>
    match jParseVal M fuel cs with
    | none => none
    | some (v, r) =>
      match jSkipWs r with
      | ',' :: r' =>
        match jParseElems M fuel r' with
        | some (vs, rest) => some (v :: vs, rest)
        | none => none
      | ']' :: r' => some ([v], r')
      | _ => none

/-- Parse the non-empty member list of an object (after `\x7b`),
accumulating into the sorted-map representation; a duplicate key
overwrites, as in a Go map. -/
def jParseMembers (M : GoNumModel) :
    Nat → List (List Char × JVal M.Num) → List Char →
    Option (List (List Char × JVal M.Num) × List Char)
  | 0, _, _ => none
  | fuel + 1, acc, cs =>
    match jSkipWs cs with
    | '"' :: r =>
      match jLexStringBody r with
      | none => none
      | some (key, r1) =>
        match jSkipWs r1 with
        | ':' :: r2 =>
          match jParseVal M fuel r2 with
          | none => none
          | some (v, r3) =>
            match jSkipWs r3 with
            | ',' :: r4 => jParseMembers M fuel (objInsert key v acc) r4
            | '\x7d' :: r4 => some (objInsert key v acc, r4)
            | _ => none
        | _ => none
    | _ => none

end

/-- `json.Unmarshal(data, &j)` for `j : interface{}`: parse one value and
require only whitespace after it.  One unit of fuel per character plus
one suffices for every input the grammar accepts. -/
def jUnmarshal (M : GoNumModel) (cs : List Char) : Option (JVal M.Num) :=
  match jParseVal M (cs.length + 1) cs with
  | some (v, rest) => if (jSkipWs rest).isEmpty then some v else none
  | none => none

/-- lowercase hexadecimal digit, for `\u00xx` escapes -/
def jHexDigit (n : Nat) : Char :=
  if n < 10 then Char.ofNat ('0'.toNat + n) else Char.ofNat ('a'.toNat + (n - 10))

/-- `json.Marshal`'s encoding of one string character, with the default
HTML escaping Go applies (`<`, `>`, `&` and U+2028/U+2029 become `\u`
escapes; `\n`, `\r`, `\t` use short escapes; other control characters
become `\u00xx`). -/
def jEscapeChar (c : Char) : List Char :=
  if c == '"' then ['\\', '"']
  else if c == '\\' then ['\\', '\\']
  else if c == '\n' then ['\\', 'n']
  else if c == '\r' then ['\\', 'r']
  else if c == '\t' then ['\\', 't']
  else if c == '<' then ['\\', 'u', '0', '0', '3', 'c']
  else if c == '>' then ['\\', 'u', '0', '0', '3', 'e']
  else if c == '&' then ['\\', 'u', '0', '0', '2', '6']
  else if c.toNat < 0x20 then
    ['\\', 'u', '0', '0', jHexDigit (c.toNat / 16), jHexDigit (c.toNat % 16)]
  else if c.toNat == 0x2028 then ['\\', 'u', '2', '0', '2', '8']
  else if c.toNat == 0x2029 then ['\\', 'u', '2', '0', '2', '9']
  else [c]

/-- `json.Marshal`'s rendering of a string, quotes included. -/
def jMarshalString (s : List Char) : List Char :=
  '"' :: (s.flatMap jEscapeChar ++ ['"'])

mutual

/-- `json.Marshal` of an `interface{}` holding Unmarshal output: compact
separators, object keys in sorted order (already the representation's
order). -/
def jMarshal (M : GoNumModel) : JVal M.Num → List Char
  | .null => 'n' :: ('u' :: ('l' :: ('l' :: [])))
  | .bool true => 't' :: ('r' :: ('u' :: ('e' :: [])))
  | .bool false => 'f' :: ('a' :: ('l' :: ('s' :: ('e' :: []))))
  | .num n => M.print n
  | .str s => jMarshalString s
  | .arr es => '[' :: (jMarshalElems M es ++ [']'])
  | .obj ms => '\x7b' :: (jMarshalMembers M ms ++ ['\x7d'])

/-- comma-separated rendered elements -/
def jMarshalElems (M : GoNumModel) : List (JVal M.Num) → List Char
  | [] => []
  | [e] => jMarshal M e
  | e :: es => jMarshal M e ++ ',' :: jMarshalElems M es

/-- comma-separated rendered `"key":value` members -/
def jMarshalMembers (M : GoNumModel) : List (List Char × JVal M.Num) → List Char
  | [] => []
  | [(k, v)] => jMarshalString k ++ ':' :: jMarshal M v
  | (k, v) :: ms => jMarshalString k ++ ':' :: jMarshal M v ++ ',' :: jMarshalMembers M ms

end

/-- the first key of the member list is above `k` (vacuous when empty) -/
def keyLtHead (k : List Char) : List (List Char × JVal ν) → Bool
  | [] => true
  | (k2, _) :: _ => keyLt k k2

/-- the member list of every object is strictly key-sorted -/
def keysSorted : List (List Char × JVal ν) → Bool
  | [] => true
  | (k, _) :: rest => keyLtHead k rest && keysSorted rest

mutual

/-- well-formedness: every object member list in the value is strictly
key-sorted (the invariant of Unmarshal output). -/
def jWF (M : GoNumModel) : JVal M.Num → Bool
  | .null => true
  | .bool _ => true
  | .num _ => true
  | .str _ => true
  | .arr es => jWFElems M es
  | .obj ms => keysSorted ms && jWFMembers M ms

def jWFElems (M : GoNumModel) : List (JVal M.Num) → Bool
  | [] => true
  | e :: es => jWF M e && jWFElems M es

def jWFMembers (M : GoNumModel) : List (List Char × JVal M.Num) → Bool
  | [] => true
  | (_, v) :: ms => jWF M v && jWFMembers M ms

end

/-- Source `NormalizeJsonString` (lines 2746-2762): `nil` or `""` maps to
`""` with no error; otherwise `json.Unmarshal` (whose error is returned)
followed by `json.Marshal` (whose error Go discards). -/
def NormalizeJsonString (M : GoNumModel) (jsonString : Option String) :
    Except GoError String :=
  match jsonString with
  | none => .ok ""
  | some s =>
    if s = "" then .ok ""
    else
      match jUnmarshal M s.toList with
      | none => .error (.other "invalid JSON")
      | some j => .ok (String.mk (jMarshal M j))

/-- A trivial instantiation of the number parameter used by witnesses:
numbers are dropped on the floor and always re-print as `0`. -/
def unitNumModel : GoNumModel where
  Num := Unit
  ofToken := fun _ => some ()
  print := fun _ => ['0']
  print_head := fun _ => ⟨'0', [], rfl, by decide⟩
  lex_print := by
    intro n rest h
    have h4 : (jIsDigit (rest.headD 'x') || rest.headD 'x' == '.' ||
        rest.headD 'x' == 'e' || rest.headD 'x' == 'E') = false ∨ rest = [] := by
      cases rest with
      | nil => exact Or.inr rfl
      | cons c t => exact Or.inl (by simpa [jNumDelim] using h)
    have hfrac : jLexFrac rest = some ([], rest) := by
      cases rest with
      | nil => rfl
      | cons c t =>
        rcases h4 with h4 | h4
        · simp only [List.headD_cons, Bool.or_eq_false_iff] at h4
          simp [jLexFrac, h4.1.1.2]
        · cases h4
    have hexp : jLexExp rest = some ([], rest) := by
      cases rest with
      | nil => rfl
      | cons c t =>
        rcases h4 with h4 | h4
        · simp only [List.headD_cons, Bool.or_eq_false_iff] at h4
          simp [jLexExp, h4.1.2, h4.2]
        · cases h4
    simp [jLexNumber, jIsDigit, hfrac, hexp]
  ofToken_print := fun _ => rfl

/-! ## `validateS3BucketName` (lines 2262-2274)

Bucket names are char lists; Go's `len` is the UTF-8 byte length, and the
regular expression `^[0-9a-zA-Z-.]+$` holds of a string iff it is
non-empty and every character is alphanumeric ASCII, `-`, or `.`
(multi-byte characters can never match the ASCII class). -/

/-- Go `len(value)`: the UTF-8 byte length. -/
def goStrLen (value : List Char) : Nat :=
  (value.map Char.utf8Size).sum

/-- membership in the character class `[0-9a-zA-Z-.]`, written over
scalar values (48-57 = `0`-`9`, 97-122 = `a`-`z`, 65-90 = `A`-`Z`) -/
def bucketNameAllowedChar (c : Char) : Bool :=
  (48 ≤ c.toNat && c.toNat ≤ 57) || (97 ≤ c.toNat && c.toNat ≤ 122) ||
    (65 ≤ c.toNat && c.toNat ≤ 90) || c == '-' || c == '.'

/-- Source `validateS3BucketName`. -/
def validateS3BucketName (value : List Char) : Option GoError :=
  if 63 < goStrLen value then
    some (.other "must contain 63 characters at most")
  else if goStrLen value < 3 then
    some (.other "must contain at least 3 characters")
  else if !(!value.isEmpty && value.all bucketNameAllowedChar) then
    some (.other "only alphanumeric characters, hyphens, and periods allowed")
  else
    none

/-! ## Bucket tagging (lines 2857-2880)

`*s3.Tag` carries non-nil `*string` key/value fields (they are built with
`aws.String`); the pointers are elided.  A Go `map[string]string` is an
insertion-ordered association list whose keys are unique — `goMapSet` is
the map write `m[k] = v`.  (Go iterates maps in unspecified order;
everything proved about these lists is order-insensitive or stated as a
map equality, i.e. list equality under the unique-keys invariant.) -/

structure S3Tag where
  key : String
  value : String
deriving DecidableEq, Repr

/-- the Go map write `m[k] = v` on the association-list model -/
def goMapSet (m : List (String × String)) (k v : String) :
    List (String × String) :=
  if m.any (fun kv => kv.1 == k) then
    m.map (fun kv => if kv.1 == k then (k, v) else kv)
  else
    m ++ [(k, v)]

/-- Source `storageBucketTaggingNormalize`: `nil` for an empty tag list,
otherwise the map collecting every tag (`none` models the nil map). -/
def storageBucketTaggingNormalize (tags : List S3Tag) :
    Option (List (String × String)) :=
  if tags.isEmpty then none
  else some (tags.foldl (fun m t => goMapSet m t.key t.value) [])

/-- Source `storageBucketTaggingFromMap`: one tag per map entry. -/
def storageBucketTaggingFromMap (m : List (String × String)) : List S3Tag :=
  m.map (fun kv => ⟨kv.1, kv.2⟩)

/-! ## Read (`resourceYandexStorageBucketRead`, lines 935-1521)

`resourceYandexStorageBucketReadBasic` performs a fixed sequence of S3
reads, propagating errors except for a tolerated per-call list; the
*values* read are flattened into resource attributes, which the model
records as attribute-name writes only (no value ever feeds back into the
control flow, with one exception that is modelled: a policy string goes
through `NormalizeJsonString`, whose failure aborts the read).  Each
`retryFlakyS3Responses`-wrapped call is one oracle slot holding its
surfaced outcome. -/

/-- Server responses for one run of `resourceYandexStorageBucketReadBasic`. -/
structure ReadResponses where
  /-- error from `getS3Client` -/
  client : Option GoError
  /-- `HeadBucket` -/
  headBucket : Option GoError
  /-- `GetBucketPolicy`: on success the policy body (a nil `*string` is
      `none`) -/
  getPolicy : Except GoError (Option String)
  /-- `GetBucketCors` -/
  getCors : Option GoError
  /-- `GetBucketWebsite` -/
  getWebsite : Option GoError
  /-- whether the `website` attribute ends up non-empty (drives only
      which attributes `websiteEndpoint` writes; that helper never
      errors) -/
  websiteConfigured : Bool
  /-- `GetBucketAcl` -/
  getAcl : Option GoError
  /-- `GetBucketVersioning` -/
  getVersioning : Option GoError
  /-- `GetObjectLockConfiguration` -/
  getObjectLock : Option GoError
  /-- `GetBucketLogging` -/
  getLogging : Option GoError
  /-- `GetBucketLifecycleConfiguration` -/
  getLifecycle : Option GoError
  /-- `GetBucketEncryption` -/
  getEncryption : Option GoError
  /-- `GetBucketTagging`: on success the tag set -/
  getTagging : Except GoError (List S3Tag)

/-- `d.Set("bucket", v)`: the one attribute whose value the model keeps. -/
def ResourceData.setBucket (d : ResourceData) (v : String) : ResourceData :=
  { d with bucket := v, attrsSet := d.attrsSet ++ ["bucket"] }

/-- The outcome of one step of the basic read: either the function
returns now (`done`, with the Go return value), or it falls through to
the next call (`next`). -/
inductive StepRes where
  | done (d : ResourceData) (err : Option GoError)
  | next (d : ResourceData)

/-- chain a step with the rest of the function -/
def StepRes.seq (r : StepRes)
    (rest : ResourceData → ResourceData × Option GoError) :
    ResourceData × Option GoError :=
  match r with
  | .done d err => (d, err)
  | .next d => rest d

/-- the state a step carries, whether it returns or falls through -/
def StepRes.data : StepRes → ResourceData
  | .done d _ => d
  | .next d => d

/-- The policy read (lines 982-1012): a nil policy and the codes
`NoSuchBucketPolicy` / `AccessDenied` are tolerated; a policy that
`NormalizeJsonString` rejects aborts the read; otherwise the `policy`
attribute is written. -/
def readPolicyStep (M : GoNumModel) (resp : ReadResponses)
    (d : ResourceData) : StepRes :=
  match resp.getPolicy with
  | .ok none => .next (d.setAttr "policy")
  | .ok (some p) =>
    match NormalizeJsonString M (some p) with
    | .error e => .done d (some (.wrapped "policy contains an invalid JSON" e))
    | .ok _ => .next (d.setAttr "policy")
  | .error e =>
    if isAWSErr e "NoSuchBucketPolicy" "" then .next (d.setAttr "policy")
    else if isAWSErr e "AccessDenied" "" then .next (d.setAttr "policy")
    else .done d (some (.wrapped "error getting current policy" e))

/-- The CORS read (lines 1014-1048): `NoSuchCORSConfiguration` is
tolerated; any other error goes through the not-found handler (clear the
id, succeed) or is returned wrapped. -/
def readCorsStep (resp : ReadResponses) (d : ResourceData) : StepRes :=
  match resp.getCors with
  | some e =>
    if !(isAWSErr e "NoSuchCORSConfiguration" "") then
      match handleS3BucketNotFoundError d e with
      | (d', true) => .done d' none
      | (_, false) =>
        .done d (some (.wrapped "error getting Storage Bucket CORS configuration" e))
    else .next (d.setAttr "cors_rule")
  | none => .next (d.setAttr "cors_rule")

/-- The website read (lines 1050-1119): `NotImplemented` and
`NoSuchWebsiteConfiguration` are tolerated; other errors go through the
not-found handler or are returned wrapped. -/
def readWebsiteStep (resp : ReadResponses) (d : ResourceData) : StepRes :=
  match resp.getWebsite with
  | some e =>
    if !(isAWSErr e "NotImplemented" "") &&
        !(isAWSErr e "NoSuchWebsiteConfiguration" "") then
      match handleS3BucketNotFoundError d e with
      | (d', true) => .done d' none
      | (_, false) =>
        .done d (some (.wrapped "error getting Storage Bucket website configuration" e))
    else .next (d.setAttr "website")
  | none => .next (d.setAttr "website")

/-- The ACL read (lines 1135-1166): a `NoSuchBucket` code on a
non-new resource clears the id and succeeds; `AccessDenied`/`Forbidden`
resets `grant` and returns success immediately; other errors are
returned wrapped.  (The Go code compares `awsErr.Code()` directly, which
coincides with `isAWSErr` at an empty message.) -/
def readAclStep (resp : ReadResponses) (d : ResourceData) : StepRes :=
  match resp.getAcl with
  | some e =>
    if !d.isNewResource && isAWSErr e "NoSuchBucket" "" then
      .done (d.setId "") none
    else if isAWSErr e "AccessDenied" "" || isAWSErr e "Forbidden" "" then
      .done (d.setAttr "grant") none
    else .done d (some (.wrapped "error getting Storage Bucket ACL" e))
  | none => .next (d.setAttr "grant")

/-- The versioning read (lines 1170-1192): its error returns unwrapped. -/
def readVersioningStep (resp : ReadResponses) (d : ResourceData) : StepRes :=
  match resp.getVersioning with
  | some e => .done d (some e)
  | none => .next (d.setAttr "versioning")

/-- The object-lock read (lines 1195-1243):
`ObjectLockConfigurationNotFoundError` and `AccessDenied` are tolerated;
other errors return unwrapped. -/
def readObjectLockStep (resp : ReadResponses) (d : ResourceData) : StepRes :=
  match resp.getObjectLock with
  | some e =>
    if !(isAWSErr e "ObjectLockConfigurationNotFoundError" "") &&
        !(isAWSErr e "AccessDenied" "") then
      .done d (some e)
    else .next (d.setAttr "object_lock_configuration")
  | none => .next (d.setAttr "object_lock_configuration")

/-- The logging read (lines 1246-1270): its error returns wrapped. -/
def readLoggingStep (resp : ReadResponses) (d : ResourceData) : StepRes :=
  match resp.getLogging with
  | some e => .done d (some (.wrapped "error getting S3 Bucket logging" e))
  | none => .next (d.setAttr "logging")

/-- The lifecycle read (lines 1272-1386): `NoSuchLifecycleConfiguration`
is tolerated; other errors return unwrapped. -/
def readLifecycleStep (resp : ReadResponses) (d : ResourceData) : StepRes :=
  match resp.getLifecycle with
  | some e =>
    if !(isAWSErr e "NoSuchLifecycleConfiguration" "") then .done d (some e)
    else .next (d.setAttr "lifecycle_rule")
  | none => .next (d.setAttr "lifecycle_rule")

/-- The encryption read (lines 1388-1405): the specific
`ServerSideEncryptionConfigurationNotFoundError` with matching message is
tolerated; other errors return wrapped. -/
def readEncryptionStep (resp : ReadResponses) (d : ResourceData) : StepRes :=
  match resp.getEncryption with
  | some e =>
    if !(isAWSErr e "ServerSideEncryptionConfigurationNotFoundError"
        "encryption configuration was not found") then
      .done d (some (.wrapped "error getting S3 Bucket encryption" e))
    else .next (d.setAttr "server_side_encryption_configuration")
  | none => .next (d.setAttr "server_side_encryption_configuration")

/-- the tagging read (lines 1407-1421): its error returns wrapped -/
def readTaggingEnd (resp : ReadResponses) (d11 : ResourceData) :
    ResourceData × Option GoError :=
  match resp.getTagging with
  | .error e => (d11, some (.wrapped "error getting S3 Bucket tags" e))
  | .ok _ => (d11.setAttr "tags", none)

/-- the chained attribute reads of the basic read, after the head-bucket
check succeeded -/
def bucketReadBasicChain (M : GoNumModel) (resp : ReadResponses)
    (d2 : ResourceData) : ResourceData × Option GoError :=
  (readPolicyStep M resp d2).seq fun d3 =>
  (readCorsStep resp d3).seq fun d4 =>
  (readWebsiteStep resp d4).seq fun d5 =>
  let d5b :=
    if resp.websiteConfigured then
      (d5.setAttr "website_endpoint").setAttr "website_domain"
    else d5
  (readAclStep resp d5b).seq fun d6 =>
  (readVersioningStep resp d6).seq fun d7 =>
  (readObjectLockStep resp d7).seq fun d8 =>
  (readLoggingStep resp d8).seq fun d9 =>
  (readLifecycleStep resp d9).seq fun d10 =>
  (readEncryptionStep resp d10).seq fun d11 =>
  readTaggingEnd resp d11

/-- Source `resourceYandexStorageBucketReadBasic` (lines 949-1424): the
chained sequence of reads.  `bucketDomainName` is treated as never
failing: it could only fail if the configured endpoint URL did not
parse, which is independent of the bucket being read. -/
def bucketReadBasic (M : GoNumModel) (resp : ReadResponses)
    (d0 : ResourceData) : ResourceData × Option GoError :=
  match resp.client with
  | some e => (d0, some (.wrapped "error getting storage client" e))
  | none =>
  -- HeadBucket (lines 959-969)
  match resp.headBucket with
  | some e =>
    match handleS3BucketNotFoundError d0 e with
    | (d1, true) => (d1, none)
    | (_, false) => (d0, some (.wrapped "error reading Storage Bucket" e))
  | none =>
  let d1 := if d0.bucket = "" then d0.setBucket d0.id else d0
  bucketReadBasicChain M resp (d1.setAttr "bucket_domain_name")

/-- Server responses for `resourceYandexStorageBucketReadExtended`. -/
structure ReadExtResponses where
  /-- `bucketAPI.Get` -/
  getBucket : Option GoError
  /-- `bucketAPI.GetHTTPSConfig` -/
  getHTTPS : Option GoError
  /-- whether the https config's source type is
      `MANAGED_BY_CERTIFICATE_MANAGER` -/
  httpsManaged : Bool

/-- Source `resourceYandexStorageBucketReadExtended` (lines 1426-1521):
skipped entirely on an empty id; a not-found `Get` clears the id and
succeeds; `NotFound`/`PermissionDenied` on the https config are
tolerated; other errors return unwrapped. -/
def bucketReadExtended (resp : ReadExtResponses) (d : ResourceData) :
    ResourceData × Option GoError :=
  if d.id = "" then (d, none)
  else
    match resp.getBucket with
    | some e =>
      match handleS3BucketNotFoundError d e with
      | (d', true) => (d', none)
      | (_, false) => (d, some e)
    | none =>
      let d1 := (((d.setAttr "default_storage_class").setAttr
        "folder_id").setAttr "max_size").setAttr "anonymous_access_flags"
      match resp.getHTTPS with
      | some e =>
        if isStatusWithCode e codeNotFound ||
            isStatusWithCode e codePermissionDenied then
          (d1.setAttr "https", none)
        else (d1, some e)
      | none =>
        (if resp.httpsManaged then d1.setAttr "https" else d1, none)

/-- Source `resourceYandexStorageBucketRead` (lines 935-947): an error of
the basic read is returned; an error of the extended read is only
logged, and the function returns `nil`. -/
def bucketRead (M : GoNumModel) (resp : ReadResponses)
    (respExt : ReadExtResponses) (d : ResourceData) :
    ResourceData × Option GoError :=
  match bucketReadBasic M resp d with
  | (d1, some e) => (d1, some e)
  | (d1, none) =>
    match bucketReadExtended respExt d1 with
    | (d2, _) => (d2, none)

/-! ## Update (`resourceYandexStorageBucketUpdate`, lines 725-933)

Which attributes have pending changes (`d.HasChange`) is part of the
Terraform diff, not of `ResourceData`; it is a separate input
`changes : String → Bool`. -/

/-- Server responses for `resourceYandexStorageBucketUpdateBasic`. -/
structure UpdateBasicResponses where
  /-- error from `getS3Client` -/
  client : Option GoError
  /-- outcome of the update handler of the named property -/
  handler : String → Option GoError

/-- the dispatch table of lines 750-762, in order -/
def updateBasicProperties : List String :=
  ["policy", "cors_rule", "website", "versioning", "acl", "grant",
   "logging", "lifecycle_rule", "server_side_encryption_configuration",
   "object_lock_configuration", "tags"]

/-- the `for _, property := range resourceProperties` loop (lines
764-777): skip unchanged properties and `acl` on a new resource; run the
handler; return its error wrapped with the property name. -/
def updateBasicLoop (resp : UpdateBasicResponses) (changes : String → Bool)
    (isNew : Bool) : List String → Option GoError
  | [] => none
  | p :: rest =>
    if !(changes p) then updateBasicLoop resp changes isNew rest
    else if p == "acl" && isNew then updateBasicLoop resp changes isNew rest
    else
      match resp.handler p with
      | some e => some (.wrapped ("handling " ++ p) e)
      | none => updateBasicLoop resp changes isNew rest

/-- Source `resourceYandexStorageBucketUpdateBasic` (lines 739-780).  The
property handlers write S3-side state and do not touch the id or the
modelled attributes. -/
def bucketUpdateBasic (resp : UpdateBasicResponses) (changes : String → Bool)
    (d : ResourceData) : ResourceData × Option GoError :=
  match resp.client with
  | some e => (d, some (.wrapped "error getting storage client" e))
  | none =>
    (d, updateBasicLoop resp changes d.isNewResource updateBasicProperties)

/-- Server responses for `resourceYandexStorageBucketUpdateExtended`. -/
structure UpdateExtResponses where
  /-- `bucketAPI.Update` + `waitOperation` -/
  update : Option GoError
  /-- the operation's `op.GetError()` payload: gRPC code and message -/
  updateOpErr : Option (Nat × String)
  /-- `bucketAPI.SetHTTPSConfig` + `waitOperation` -/
  setHTTPS : Option GoError
  setHTTPSOpErr : Option (Nat × String)
  /-- `bucketAPI.DeleteHTTPSConfig` + `waitOperation` -/
  deleteHTTPS : Option GoError
  deleteHTTPSOpErr : Option (Nat × String)
  /-- whether the `https` attribute's set is non-empty
      (`schemaSet.Len() > 0`, line 872) -/
  httpsConfigured : Bool

/-- the three extended bucket parameters handled by `changeHandlers`
(lines 814-824) -/
def updateExtendedFields : List String :=
  ["default_storage_class", "max_size", "anonymous_access_flags"]

/-- Source `resourceYandexStorageRequireExternalSDK` (lines 711-723). -/
def resourceYandexStorageRequireExternalSDK (d : ResourceData) : Bool :=
  d.folderId != ""

/-- The paths accumulated by `handleChange` (lines 795-828): a field is
appended iff the resource is not a new resource created through the SDK
and the field has a pending change.  Go iterates the `changeHandlers`
map in unspecified order, so the iteration order is a parameter. -/
def updateExtendedPaths (changes : String → Bool) (d : ResourceData)
    (order : List String) : List String :=
  order.filter fun p =>
    !(d.isNewResource && resourceYandexStorageRequireExternalSDK d) && changes p

/-- What one run of `resourceYandexStorageBucketUpdateExtended` did. -/
structure ExtUpdateResult where
  d : ResourceData
  err : Option GoError
  /-- whether the masked `bucketAPI.Update` request was issued -/
  updateCalled : Bool
  /-- the field mask of that request (`paths`) -/
  mask : List String

/-- The https half of `resourceYandexStorageBucketUpdateExtended` (lines
865-932): nothing if `https` has no pending change; otherwise set or
delete the config, with not-found treated as success-after-clearing-id
and an operation error surfaced as a gRPC status error. -/
def bucketUpdateExtendedHttps (resp : UpdateExtResponses)
    (changes : String → Bool) (called : Bool) (paths : List String)
    (d1 : ResourceData) : ExtUpdateResult :=
  if !(changes "https") then ⟨d1, none, called, paths⟩
  else if resp.httpsConfigured then
    match resp.setHTTPS with
    | some e =>
      match handleS3BucketNotFoundError d1 e with
      | (d2, true) => ⟨d2, none, called, paths⟩
      | (_, false) => ⟨d1, some e, called, paths⟩
    | none =>
      match resp.setHTTPSOpErr with
      | some (code, msg) => ⟨d1, some (.grpcErr code msg), called, paths⟩
      | none => ⟨d1, none, called, paths⟩
  else
    match resp.deleteHTTPS with
    | some e =>
      match handleS3BucketNotFoundError d1 e with
      | (d2, true) => ⟨d2, none, called, paths⟩
      | (_, false) => ⟨d1, some e, called, paths⟩
    | none =>
      match resp.deleteHTTPSOpErr with
      | some (code, msg) => ⟨d1, some (.grpcErr code msg), called, paths⟩
      | none => ⟨d1, none, called, paths⟩

/-- Source `resourceYandexStorageBucketUpdateExtended` (lines 782-933):
nothing happens on an empty id; the masked `Update` is issued only when
some path changed, with not-found treated as success-after-clearing-id
and an operation error surfaced as a gRPC status error; then the https
configuration is handled. -/
def bucketUpdateExtended (resp : UpdateExtResponses)
    (changes : String → Bool) (order : List String) (d : ResourceData) :
    ExtUpdateResult :=
  if d.id = "" then ⟨d, none, false, []⟩
  else
    let paths := updateExtendedPaths changes d order
    if paths.isEmpty then
      bucketUpdateExtendedHttps resp changes false paths d
    else
      match resp.update with
      | some e =>
        match handleS3BucketNotFoundError d e with
        | (d', true) => ⟨d', none, true, paths⟩
        | (_, false) => ⟨d, some e, true, paths⟩
      | none =>
        match resp.updateOpErr with
        | some (code, msg) => ⟨d, some (.grpcErr code msg), true, paths⟩
        | none => bucketUpdateExtendedHttps resp changes true paths d

/-- Source `resourceYandexStorageBucketUpdate` (lines 725-737): basic,
then extended, then a full read. -/
def bucketUpdate (M : GoNumModel) (basicResp : UpdateBasicResponses)
    (extResp : UpdateExtResponses) (readResp : ReadResponses)
    (readExtResp : ReadExtResponses) (changes : String → Bool)
    (order : List String) (d : ResourceData) :
    ResourceData × Option GoError :=
  match bucketUpdateBasic basicResp changes d with
  | (d1, some e) => (d1, some e)
  | (d1, none) =>
    let r := bucketUpdateExtended extResp changes order d1
    match r.err with
    | some e => (r.d, some e)
    | none => bucketRead M readResp readExtResp r.d

/-! ## Create (`resourceYandexStorageBucketCreate`, lines 679-709) -/

/-- Server responses for one run of Create, including everything the
trailing Update + Read needs. -/
structure CreateResponses where
  /-- the surfaced outcome of `resourceYandexStorageBucketCreateBySDK`
      or `resourceYandexStorageBucketCreateByS3Client` (whichever the
      `folder_id` check selects) -/
  create : Option GoError
  basic : UpdateBasicResponses
  ext : UpdateExtResponses
  read : ReadResponses
  readExt : ReadExtResponses

/-- Source `resourceYandexStorageBucketCreate`: resolve the bucket name
(`genName` models the `resource.PrefixedUniqueId`/`resource.UniqueId`
fallbacks when the `bucket` attribute is unset), validate it before any
network call, write it back, create by SDK or S3 client, set the id, and
finish with a full Update. -/
def bucketCreate (M : GoNumModel) (resp : CreateResponses)
    (changes : String → Bool) (order : List String) (genName : String)
    (d : ResourceData) : ResourceData × Option GoError :=
  let bucket := if d.bucket ≠ "" then d.bucket else genName
  match validateS3BucketName bucket.toList with
  | some e => (d, some (.wrapped "error validating Storage Bucket name" e))
  | none =>
    let d1 := d.setBucket bucket
    match resp.create with
    | some e => (d1, some (.wrapped "error creating Storage S3 Bucket" e))
    | none =>
      let d2 := d1.setId bucket
      bucketUpdate M resp.basic resp.ext resp.read resp.readExt changes order d2

/-! ## Concrete states and oracles used by witnesses and counterexamples -/

/-- an option slot that carries no not-found-style error -/
def errNotNF (o : Option GoError) : Prop :=
  ∀ e, o = some e → notFoundStyle e = false

/-- an ordinary existing resource -/
def sampleData : ResourceData :=
  ⟨"mybucket", "mybucket", "", false, false, []⟩

/-- an existing resource with `force_destroy = true` -/
def forceDestroyData : ResourceData :=
  ⟨"mybucket", "mybucket", "", true, false, []⟩

/-- a fresh state entering Create: no id yet, `bucket` configured,
`IsNewResource` holds -/
def newCreateData : ResourceData :=
  ⟨"", "mybucket", "", false, true, []⟩

def bucketNotEmptyErr : GoError :=
  .awsErr "BucketNotEmpty" "the bucket you tried to delete is not empty"

/-- a server that answers every delete attempt with `BucketNotEmpty` and
lets every listing and bulk deletion succeed -/
def persistentNotEmptyResponses : DeleteResponses where
  deleteBucket := fun _ => some bucketNotEmptyErr
  listObjectVersions := fun _ => none
  deleteObjects := fun _ => none
  headBucket := fun _ _ => none

/-- a server whose delete call reports the bucket already absent -/
def noSuchBucketResponses : DeleteResponses where
  deleteBucket := fun _ => some (.awsErr "NoSuchBucket" "bucket does not exist")
  listObjectVersions := fun _ => none
  deleteObjects := fun _ => none
  headBucket := fun _ _ => none

/-- read responses in which every call succeeds -/
def okReadResponses : ReadResponses where
  client := none
  headBucket := none
  getPolicy := .ok none
  getCors := none
  getWebsite := none
  websiteConfigured := false
  getAcl := none
  getVersioning := none
  getObjectLock := none
  getLogging := none
  getLifecycle := none
  getEncryption := none
  getTagging := .ok []

def okReadExtResponses : ReadExtResponses := ⟨none, none, false⟩

/-- an HTTP 404 request failure -/
def notFound404 : GoError := .awsReqFailure "NotFound" "Not Found" 404

/-- read responses whose head-bucket lookup reports 404 -/
def headNotFoundReadResponses : ReadResponses :=
  { okReadResponses with headBucket := some notFound404 }

/-- an internal gRPC error (code 13), not a not-found -/
def internalGrpcErr : GoError := .grpcErr 13 "internal"

/-- extended-read responses whose `Get` fails with a non-not-found error -/
def extFailReadExtResponses : ReadExtResponses :=
  ⟨some internalGrpcErr, none, false⟩

def okUpdateBasicResponses : UpdateBasicResponses := ⟨none, fun _ => none⟩

def okUpdateExtResponses : UpdateExtResponses :=
  ⟨none, none, none, none, none, none, false⟩

/-- create responses: creation and update succeed, but the trailing
read's head-bucket lookup reports 404 -/
def createThenReadNotFoundResponses : CreateResponses :=
  ⟨none, okUpdateBasicResponses, okUpdateExtResponses,
   headNotFoundReadResponses, okReadExtResponses⟩

/-- create responses in which everything succeeds -/
def okCreateResponses : CreateResponses :=
  ⟨none, okUpdateBasicResponses, okUpdateExtResponses,
   okReadResponses, okReadExtResponses⟩

/-- the no-pending-changes diff -/
def noChanges : String → Bool := fun _ => false

/-- a diff in which only `max_size` changed -/
def maxSizeChange : String → Bool := fun p => p == "max_size"

/-- One inner round moves the stream position forward by at most `fuel`. -/
theorem waitInner_le (check : Nat → Except GoError Bool) :
    ∀ fuel allOk pos,
      pos ≤ (waitInner check fuel allOk pos).2 ∧
      (waitInner check fuel allOk pos).2 ≤ pos + fuel := by
  intro fuel
  induction fuel with
  | zero => intro allOk pos; simp [waitInner]
  | succ n ih =>
    intro allOk pos
    by_cases h : allOk
    · simp only [waitInner, if_pos h]
      cases hc : check pos with
      | error e => dsimp only; omega
      | ok b =>
        dsimp only
        have := ih (allOk && b) (pos + 1)
        constructor <;> omega
    · simp only [waitInner, if_neg h]
      omega

/-- If the round is entered with `allOk = false` it does nothing. -/
theorem waitInner_false (check : Nat → Except GoError Bool) :
    ∀ fuel pos, waitInner check fuel false pos = (.ok false, pos) := by
  intro fuel pos
  cases fuel <;> simp [waitInner]

/-- Every invocation a non-erroring round consumed returned `Except.ok`. -/
theorem waitInner_ok_consumed (check : Nat → Except GoError Bool) :
    ∀ fuel allOk pos b pos',
      waitInner check fuel allOk pos = (.ok b, pos') →
      ∀ j, pos ≤ j → j < pos' → ∃ bb, check j = .ok bb := by
  intro fuel
  induction fuel with
  | zero =>
    intro allOk pos b pos' h j h1 h2
    simp only [waitInner, Prod.mk.injEq] at h
    obtain ⟨-, rfl⟩ := h
    omega
  | succ n ih =>
    intro allOk pos b pos' h j h1 h2
    by_cases hok : allOk
    · simp only [waitInner, if_pos hok] at h
      cases hc : check pos with
      | error e => rw [hc] at h; simp at h
      | ok bb =>
        rw [hc] at h
        dsimp only at h
        rcases Nat.eq_or_lt_of_le h1 with rfl | hlt
        · exact ⟨bb, hc⟩
        · exact ih _ _ _ _ h j hlt h2
    · simp only [waitInner, if_neg hok, Prod.mk.injEq] at h
      obtain ⟨-, rfl⟩ := h
      omega

/-- An erroring round returns the error of its last invocation, and every
earlier invocation it consumed returned `Except.ok`. -/
theorem waitInner_error_spec (check : Nat → Except GoError Bool) :
    ∀ fuel allOk pos e pos',
      waitInner check fuel allOk pos = (.error e, pos') →
      check (pos' - 1) = .error e ∧ pos < pos' ∧
      ∀ j, pos ≤ j → j < pos' - 1 → ∃ bb, check j = .ok bb := by
  intro fuel
  induction fuel with
  | zero =>
    intro allOk pos e pos' h
    simp [waitInner] at h
  | succ n ih =>
    intro allOk pos e pos' h
    by_cases hok : allOk
    · simp only [waitInner, if_pos hok] at h
      cases hc : check pos with
      | error e' =>
        rw [hc] at h
        simp only [Prod.mk.injEq, Except.error.injEq] at h
        obtain ⟨rfl, rfl⟩ := h
        refine ⟨by simpa using hc, by omega, ?_⟩
        intro j h1 h2
        omega
      | ok bb =>
        rw [hc] at h
        dsimp only at h
        obtain ⟨he, hlt, hpre⟩ := ih _ _ _ _ h
        refine ⟨he, by omega, ?_⟩
        intro j h1 h2
        rcases Nat.eq_or_lt_of_le h1 with rfl | hlt'
        · exact ⟨bb, hc⟩
        · exact hpre j hlt' h2
    · simp [waitInner, if_neg hok] at h

/-- A fully successful round starting with `allOk = true` consumed exactly
`fuel` invocations, all of which returned `true`. -/
theorem waitInner_true_spec (check : Nat → Except GoError Bool) :
    ∀ fuel pos pos',
      waitInner check fuel true pos = (.ok true, pos') →
      pos' = pos + fuel ∧ ∀ j, j < fuel → check (pos + j) = .ok true := by
  intro fuel
  induction fuel with
  | zero =>
    intro pos pos' h
    simp only [waitInner, Prod.mk.injEq] at h
    exact ⟨by omega, by intro j hj; omega⟩
  | succ n ih =>
    intro pos pos' h
    simp only [waitInner, if_pos rfl] at h
    cases hc : check pos with
    | error e => rw [hc] at h; simp at h
    | ok b =>
      rw [hc] at h
      simp only [Bool.true_and] at h
      cases b with
      | false => rw [waitInner_false] at h; simp at h
      | true =>
        obtain ⟨rfl, hall⟩ := ih _ _ h
        refine ⟨by omega, ?_⟩
        intro j hj
        cases j with
        | zero => simpa using hc
        | succ k =>
          have := hall k (by omega)
          simpa [Nat.add_assoc, Nat.add_comm 1 k] using this

/-- The outer loop advances the position by at most ten per round. -/
theorem waitOuter_le (check : Nat → Except GoError Bool) :
    ∀ fuel pos,
      pos ≤ (waitOuter check fuel pos).2 ∧
      (waitOuter check fuel pos).2 ≤ pos + fuel * 10 := by
  intro fuel
  induction fuel with
  | zero => intro pos; simp [waitOuter]
  | succ n ih =>
    intro pos
    simp only [waitOuter]
    cases hi : waitInner check 10 true pos with
    | mk r pos' =>
      have hle := waitInner_le check 10 true pos
      rw [hi] at hle
      cases r with
      | error e => dsimp only; omega
      | ok allOk =>
        dsimp only
        by_cases hok : allOk
        · rw [if_pos hok]; dsimp only; omega
        · rw [if_neg hok]
          have := ih pos'
          constructor <;> omega

/-- A `nil` result of the outer loop exhibits ten consecutive `true`
invocations. -/
theorem waitOuter_none_spec (check : Nat → Except GoError Bool) :
    ∀ fuel pos pos',
      waitOuter check fuel pos = (none, pos') →
      ∃ s, ∀ j, j < 10 → check (s + j) = .ok true := by
  intro fuel
  induction fuel with
  | zero => intro pos pos' h; simp [waitOuter] at h
  | succ n ih =>
    intro pos pos' h
    simp only [waitOuter] at h
    cases hi : waitInner check 10 true pos with
    | mk r p1 =>
      rw [hi] at h
      cases r with
      | error e => simp at h
      | ok allOk =>
        simp only at h
        by_cases hok : allOk
        · subst hok
          obtain ⟨-, hall⟩ := waitInner_true_spec check 10 pos p1 hi
          exact ⟨pos, hall⟩
        · rw [if_neg hok] at h
          exact ih _ _ h

/-- An error result of the outer loop is either the timeout value or the
first error in the consumed prefix, returned immediately: it was produced
by the last invocation made, and all earlier invocations returned `ok`. -/
theorem waitOuter_some_spec (check : Nat → Except GoError Bool) :
    ∀ fuel pos e pos',
      waitOuter check fuel pos = (some e, pos') →
      e = timeoutExceeded ∨
        (check (pos' - 1) = .error e ∧ pos < pos' ∧
         ∀ j, pos ≤ j → j < pos' - 1 → ∃ bb, check j = .ok bb) := by
  intro fuel
  induction fuel with
  | zero =>
    intro pos e pos' h
    simp only [waitOuter, Prod.mk.injEq, Option.some.injEq] at h
    exact Or.inl h.1.symm
  | succ n ih =>
    intro pos e pos' h
    simp only [waitOuter] at h
    cases hi : waitInner check 10 true pos with
    | mk r p1 =>
      rw [hi] at h
      cases r with
      | error e' =>
        simp only [Prod.mk.injEq, Option.some.injEq] at h
        obtain ⟨rfl, rfl⟩ := h
        exact Or.inr (waitInner_error_spec check 10 true pos _ _ hi)
      | ok allOk =>
        dsimp only at h
        by_cases hok : allOk
        · rw [if_pos hok] at h; simp at h
        · rw [if_neg hok] at h
          rcases ih _ _ _ h with ht | ⟨he, hlt, hpre⟩
          · exact Or.inl ht
          · have hle := waitInner_le check 10 true pos
            rw [hi] at hle
            refine Or.inr ⟨he, by omega, ?_⟩
            intro j h1 h2
            by_cases hj : j < p1
            · exact waitInner_ok_consumed check 10 true pos allOk p1 hi j h1 hj
            · exact hpre j (by omega) h2

/-! ## Theorems about Delete -/

/-- If attempt `k` does not take the recursive branch, the run returns at
attempt `k` (one more unit of fuel suffices). -/
theorem bucketDeleteRun_returns_of_not_recurses (resp : DeleteResponses)
    (d : ResourceData) (k : Nat) (h : ¬ deleteRecursesAt resp d k) :
    ∃ r, ∀ fuel, bucketDeleteRun resp d (fuel + 1) k = some r := by
  cases hd : resp.deleteBucket k with
  | none =>
    refine ⟨?_, fun fuel => ?_⟩
    · exact match (waitConditionStable (deleteWaitCheck resp k)).1 with
        | some e => .error (.wrapped "error deleting Storage Bucket" e)
        | none => .ok ()
    · simp only [bucketDeleteRun, hd]
      cases (waitConditionStable (deleteWaitCheck resp k)).1 <;> rfl
  | some e =>
    by_cases h1 : isAWSErr e "NoSuchBucket" "" = true
    · exact ⟨.ok (), fun fuel => by simp only [bucketDeleteRun, hd, if_pos h1]⟩
    · rw [Bool.not_eq_true] at h1
      by_cases h2 : (isAWSErr e "BucketNotEmpty" "" && d.forceDestroy) = true
      · cases hl : resp.listObjectVersions k with
        | some e' =>
          refine ⟨.error (.wrapped "error listing Storage Bucket object versions" e'),
            fun fuel => ?_⟩
          simp only [bucketDeleteRun, hd, h1, Bool.false_eq_true, if_false, if_pos h2, hl]
        | none =>
          cases ho : resp.deleteObjects k with
          | some e' =>
            refine ⟨.error (.wrapped "error force_destroy deleting Storage Bucket" e'),
              fun fuel => ?_⟩
            simp only [bucketDeleteRun, hd, h1, Bool.false_eq_true, if_false, if_pos h2, hl, ho]
          | none => exact absurd ⟨e, hd, h1, h2, hl, ho⟩ h
      · rw [Bool.not_eq_true] at h2
        refine ⟨.error (.wrapped "error deleting Storage Bucket" e), fun fuel => ?_⟩
        simp only [bucketDeleteRun, hd, h1, Bool.false_eq_true, if_false, h2, if_false]

/-- If every attempt from `k` on recurses, no fuel makes the run return. -/
theorem bucketDeleteRun_none_of_all_recurse (resp : DeleteResponses)
    (d : ResourceData) (h : ∀ k, deleteRecursesAt resp d k) :
    ∀ fuel k, bucketDeleteRun resp d fuel k = none := by
  intro fuel
  induction fuel with
  | zero => intro k; rfl
  | succ n ih =>
    intro k
    obtain ⟨e, hd, h1, h2, h3, h4⟩ := h k
    simp only [bucketDeleteRun, hd, h1, Bool.false_eq_true, if_false, if_pos h2, h3, h4]
    exact ih (k + 1)

/-! ## Claim theorems -/

/-- C1: for every bucket state and every server behaviour, if the delete
API call made by `resourceYandexStorageBucketDelete` fails with the
`NoSuchBucket` error code, Delete returns success (`nil`), not an
error. -/
theorem delete_noSuchBucket_returns_nil
    (resp : DeleteResponses) (d : ResourceData) (e : GoError) (fuel : Nat)
    (hd : resp.deleteBucket 0 = some e)
    (hcode : isAWSErr e "NoSuchBucket" "" = true) :
    bucketDeleteRun resp d (fuel + 1) 0 = some (.ok ()) := by
  simp only [bucketDeleteRun, hd, if_pos hcode]

/-- C1 witness: a concrete run in which the delete call reports
`NoSuchBucket` and Delete returns `nil`. -/
theorem delete_noSuchBucket_returns_nil_witness :
    bucketDeleteRun noSuchBucketResponses sampleData 1 0 = some (.ok ()) :=
  delete_noSuchBucket_returns_nil noSuchBucketResponses sampleData _ 0 rfl
    (by decide)

/-- C3 counterexample: with `force_destroy` set and a server that
persistently reports `BucketNotEmpty` while letting the object cleanup
succeed, the recursive Delete never returns — no recursion/retry budget
bounds the number of delete attempts. -/
theorem delete_forceDestroy_nontermination :
    ¬ deleteTerminates persistentNotEmptyResponses forceDestroyData := by
  rintro ⟨fuel, r, h⟩
  rw [bucketDeleteRun_none_of_all_recurse] at h
  · exact Option.noConfusion h
  · intro k
    exact ⟨bucketNotEmptyErr, rfl, by decide, by decide, rfl, rfl⟩

/-- C3 (amended): the force-destroy cascade of
`resourceYandexStorageBucketDelete` is *not* bounded by any budget; it
terminates exactly when some attempt fails to take the recursive branch
(the delete call succeeds, or fails with something other than
`BucketNotEmpty`-with-`force_destroy`, or the listing or bulk object
deletion fails) — under persistently adversarial responses it recurses
forever. -/
theorem delete_terminates_iff_some_attempt_stops
    (resp : DeleteResponses) (d : ResourceData) :
    deleteTerminates resp d ↔ ∃ k, ¬ deleteRecursesAt resp d k := by
  constructor
  · intro ht
    by_contra hforall
    push_neg at hforall
    obtain ⟨fuel, r, h⟩ := ht
    rw [bucketDeleteRun_none_of_all_recurse resp d hforall] at h
    exact Option.noConfusion h
  · rintro ⟨k, hk⟩
    have key : ∀ n k, ¬ deleteRecursesAt resp d (k + n) →
        ∃ r, bucketDeleteRun resp d (n + 1) k = some r := by
      intro n
      induction n with
      | zero =>
        intro k hk
        obtain ⟨r, hr⟩ := bucketDeleteRun_returns_of_not_recurses resp d k hk
        exact ⟨r, hr 0⟩
      | succ m ih =>
        intro k hk
        by_cases hrec : deleteRecursesAt resp d k
        · obtain ⟨e, hdb, h1, h2, h3, h4⟩ := hrec
          refine (ih (k + 1) ?_).imp fun r hr => ?_
          · have : k + 1 + m = k + (m + 1) := by omega
            rw [this]; exact hk
          · simpa only [bucketDeleteRun, hdb, h1, Bool.false_eq_true, if_false,
              if_pos h2, h3, h4] using hr
        · obtain ⟨r, hr⟩ := bucketDeleteRun_returns_of_not_recurses resp d k hrec
          exact ⟨r, hr (m + 1)⟩
    obtain ⟨r, hr⟩ := key k 0 (by simpa using hk)
    exact ⟨k + 1, r, hr⟩

/-- C8: `waitConditionStable` invokes its check at most 120 times (12
rounds of at most 10 sub-checks); it returns `nil` only when ten
consecutive invocations all reported the condition stable; an error it
returns is either the timeout value or the first error the check
returned, propagated immediately (it came from the last invocation made,
every earlier invocation having returned a boolean). -/
theorem waitConditionStable_budget_and_outcomes
    (check : Nat → Except GoError Bool) :
    (waitConditionStable check).2 ≤ 120 ∧
    ((waitConditionStable check).1 = none →
      ∃ s, ∀ j, j < 10 → check (s + j) = .ok true) ∧
    (∀ e, (waitConditionStable check).1 = some e →
      e = timeoutExceeded ∨
        (check ((waitConditionStable check).2 - 1) = .error e ∧
         ∀ j, j < (waitConditionStable check).2 - 1 → ∃ b, check j = .ok b)) := by
  refine ⟨?_, ?_, ?_⟩
  · have := waitOuter_le check 12 0
    simpa [waitConditionStable] using this.2
  · intro h
    obtain ⟨p, hp⟩ : ∃ p, waitOuter check 12 0 = (none, p) := by
      refine ⟨(waitOuter check 12 0).2, ?_⟩
      have : waitOuter check 12 0
          = ((waitOuter check 12 0).1, (waitOuter check 12 0).2) := rfl
      rw [this, show (waitOuter check 12 0).1 = none from h]
    exact waitOuter_none_spec check 12 0 p hp
  · intro e h
    obtain ⟨p, hp, hpeq⟩ : ∃ p, waitOuter check 12 0 = (some e, p) ∧
        p = (waitConditionStable check).2 := by
      refine ⟨(waitOuter check 12 0).2, ?_, rfl⟩
      have : waitOuter check 12 0
          = ((waitOuter check 12 0).1, (waitOuter check 12 0).2) := rfl
      rw [this, show (waitOuter check 12 0).1 = some e from h]
    rcases waitOuter_some_spec check 12 0 e p hp with ht | ⟨he, -, hpre⟩
    · exact Or.inl ht
    · exact Or.inr ⟨hpeq ▸ he, fun j hj => hpre j (Nat.zero_le j) (hpeq ▸ hj)⟩

/-- C8 witness: on a stream that always reports stable, the waiter stops
within budget and the success condition is exhibited. -/
theorem waitConditionStable_budget_and_outcomes_witness :
    (waitConditionStable (fun _ => .ok true)).2 ≤ 120 ∧
    ∃ s, ∀ j, j < 10 → (fun _ => (.ok true : Except GoError Bool)) (s + j) = .ok true := by
  obtain ⟨h1, h2, -⟩ :=
    waitConditionStable_budget_and_outcomes (fun _ => .ok true)
  exact ⟨h1, h2 rfl⟩

/-- C2: when the head-bucket lookup of Read fails with a not-found error
(HTTP 404 request failure or gRPC NotFound), Read clears the resource id
and returns success. -/
theorem read_notFound_clears_id_and_succeeds
    (M : GoNumModel) (resp : ReadResponses) (respExt : ReadExtResponses)
    (d : ResourceData) (e : GoError)
    (hc : resp.client = none)
    (hh : resp.headBucket = some e)
    (hnf : notFoundStyle e = true) :
    bucketRead M resp respExt d = (d.setId "", none) := by
  have hb : bucketReadBasic M resp d = (d.setId "", none) := by
    simp only [bucketReadBasic, hc, hh, handleS3BucketNotFoundError, hnf, if_true]
  have hext : bucketReadExtended respExt (d.setId "") = (d.setId "", none) := by
    simp [bucketReadExtended, ResourceData.setId]
  simp only [bucketRead, hb, hext]

/-- C2 witness: a concrete 404 on the lookup clears a concrete id. -/
theorem read_notFound_clears_id_and_succeeds_witness :
    bucketRead unitNumModel headNotFoundReadResponses okReadExtResponses
      sampleData = (sampleData.setId "", none) :=
  read_notFound_clears_id_and_succeeds unitNumModel headNotFoundReadResponses
    okReadExtResponses sampleData notFound404 rfl rfl (by decide)

/-- C4 counterexample: the extended sub-step of Read fails with an
internal (non-not-found) gRPC error, yet Read returns success — the
error is logged and suppressed, a third silent-suppression case beyond
the two the claim admits. -/
theorem read_swallows_extended_error :
    extFailReadExtResponses.getBucket = some internalGrpcErr ∧
    notFoundStyle internalGrpcErr = false ∧
    (bucketReadExtended extFailReadExtResponses
      (bucketReadBasic unitNumModel okReadResponses sampleData).1).2
        = some internalGrpcErr ∧
    (bucketRead unitNumModel okReadResponses extFailReadExtResponses
      sampleData).2 = none := by
  exact ⟨rfl, by decide, rfl, rfl⟩

/-- C4 (amended): Read returns an error exactly when its *basic*
sub-step returns that error; an error of the extended sub-step is logged
and suppressed, so Read succeeds whenever the basic sub-step succeeds
(the basic sub-step itself additionally tolerates its documented
per-call error codes). -/
theorem read_error_iff_basic_error
    (M : GoNumModel) (resp : ReadResponses) (respExt : ReadExtResponses)
    (d : ResourceData) :
    (∀ e, (bucketRead M resp respExt d).2 = some e ↔
      (bucketReadBasic M resp d).2 = some e) ∧
    ((bucketReadBasic M resp d).2 = none →
      (bucketRead M resp respExt d).2 = none) := by
  cases hb : bucketReadBasic M resp d with
  | mk d1 r =>
    cases r with
    | none =>
      have hr : bucketRead M resp respExt d
          = ((bucketReadExtended respExt d1).1, none) := by
        simp only [bucketRead, hb]
      simp [hr]
    | some e =>
      have hr : bucketRead M resp respExt d = (d1, some e) := by
        simp only [bucketRead, hb]
      simp [hr]

/-- C4 witness: with every call succeeding, the basic sub-step succeeds
and so does Read. -/
theorem read_error_iff_basic_error_witness :
    (bucketReadBasic unitNumModel okReadResponses sampleData).2 = none ∧
    (bucketRead unitNumModel okReadResponses okReadExtResponses
      sampleData).2 = none := by
  refine ⟨rfl, ?_⟩
  exact (read_error_iff_basic_error unitNumModel okReadResponses
    okReadExtResponses sampleData).2 rfl

/-- the field mask of the extended update is always the accumulated
`paths` (empty when skipped on an empty id) -/
theorem bucketUpdateExtended_mask (resp : UpdateExtResponses)
    (changes : String → Bool) (order : List String) (d : ResourceData) :
    (bucketUpdateExtended resp changes order d).mask
      = if d.id = "" then [] else updateExtendedPaths changes d order := by
  have hhttps : ∀ called paths d1,
      (bucketUpdateExtendedHttps resp changes called paths d1).mask = paths := by
    intro called paths d1
    unfold bucketUpdateExtendedHttps
    repeat' split
    all_goals rfl
  by_cases hid : d.id = ""
  · simp [bucketUpdateExtended, hid]
  · simp only [bucketUpdateExtended, if_neg hid]
    repeat' split
    all_goals first
      | rfl
      | apply hhttps

/-- the masked update RPC is issued exactly when the id is set and some
path changed -/
theorem bucketUpdateExtended_called (resp : UpdateExtResponses)
    (changes : String → Bool) (order : List String) (d : ResourceData) :
    (bucketUpdateExtended resp changes order d).updateCalled
      = if d.id = "" then false
        else !(updateExtendedPaths changes d order).isEmpty := by
  have hhttps : ∀ called paths d1,
      (bucketUpdateExtendedHttps resp changes called paths d1).updateCalled
        = called := by
    intro called paths d1
    unfold bucketUpdateExtendedHttps
    repeat' split
    all_goals rfl
  by_cases hid : d.id = ""
  · simp [bucketUpdateExtended, hid]
  · simp only [bucketUpdateExtended, if_neg hid]
    by_cases hp : (updateExtendedPaths changes d order).isEmpty
    · rw [if_pos hp, hhttps, hp]
      rfl
    · rw [if_neg hp, Bool.not_eq_true] at *
      rw [hp]
      split
      · split
        · rfl
        · rfl
      · split
        · rfl
        · exact hhttps ..

/-- C5: under a pending-changes diff and any iteration order of the
three extended parameters, when the resource is not a new resource
created through the SDK: if the update request is issued its field mask
holds exactly the changed parameters, and when none changed no update
request is issued at all. -/
theorem updateExtended_mask_exact
    (resp : UpdateExtResponses) (changes : String → Bool)
    (order : List String) (d : ResourceData)
    (horder : order.Perm updateExtendedFields)
    (hnotnew : (d.isNewResource &&
      resourceYandexStorageRequireExternalSDK d) = false) :
    ((bucketUpdateExtended resp changes order d).updateCalled = true →
      ∀ p, p ∈ (bucketUpdateExtended resp changes order d).mask ↔
        (p ∈ updateExtendedFields ∧ changes p = true)) ∧
    ((∀ p ∈ updateExtendedFields, changes p = false) →
      (bucketUpdateExtended resp changes order d).updateCalled = false) := by
  have hfun : (fun p => !(d.isNewResource &&
      resourceYandexStorageRequireExternalSDK d) && changes p)
        = fun p => changes p := by
    funext p
    rw [hnotnew]
    simp
  have hpaths : updateExtendedPaths changes d order = order.filter changes := by
    unfold updateExtendedPaths
    rw [hfun]
  constructor
  · intro hcalled p
    rw [bucketUpdateExtended_mask]
    rw [bucketUpdateExtended_called] at hcalled
    by_cases hid : d.id = ""
    · rw [if_pos hid] at hcalled
      exact absurd hcalled (by simp)
    · rw [if_neg hid, hpaths, List.mem_filter]
      exact and_congr_left fun _ => horder.mem_iff
  · intro hnochange
    rw [bucketUpdateExtended_called]
    by_cases hid : d.id = ""
    · rw [if_pos hid]
    · rw [if_neg hid, hpaths]
      have : order.filter changes = [] := by
        rw [List.filter_eq_nil_iff]
        intro p hp
        rw [hnochange p (horder.mem_iff.mp hp)]
        exact Bool.false_ne_true
      rw [this]
      rfl

/-- C5 witness: with only `max_size` changed the issued mask contains
exactly `max_size`; with nothing changed no request is issued. -/
theorem updateExtended_mask_exact_witness :
    ("max_size" ∈ (bucketUpdateExtended okUpdateExtResponses maxSizeChange
        updateExtendedFields sampleData).mask ∧
      ¬ "default_storage_class" ∈ (bucketUpdateExtended okUpdateExtResponses
        maxSizeChange updateExtendedFields sampleData).mask) ∧
    (bucketUpdateExtended okUpdateExtResponses noChanges
      updateExtendedFields sampleData).updateCalled = false := by
  have h1 := updateExtended_mask_exact okUpdateExtResponses maxSizeChange
    updateExtendedFields sampleData (List.Perm.refl _) (by decide)
  have h2 := updateExtended_mask_exact okUpdateExtResponses noChanges
    updateExtendedFields sampleData (List.Perm.refl _) (by decide)
  refine ⟨⟨?_, ?_⟩, ?_⟩
  · exact (h1.1 (by decide) "max_size").mpr ⟨by decide, by decide⟩
  · intro hmem
    have := (h1.1 (by decide) "default_storage_class").mp hmem
    simp [maxSizeChange] at this
  · exact h2.2 (by decide)

/-- a map write at an absent key appends the binding -/
theorem goMapSet_absent (m : List (String × String)) (k v : String)
    (h : m.any (fun kv => kv.1 == k) = false) :
    goMapSet m k v = m ++ [(k, v)] := by
  simp [goMapSet, h]

/-- folding the tags of a unique-key map into a fresh map appends the
entries in order -/
theorem tags_fold_append :
    ∀ (m acc : List (String × String)),
      (∀ p ∈ m, acc.any (fun kv => kv.1 == p.1) = false) →
      (m.map Prod.fst).Nodup →
      (storageBucketTaggingFromMap m).foldl
        (fun mm t => goMapSet mm t.key t.value) acc = acc ++ m := by
  intro m
  induction m with
  | nil => intro acc _ _; simp [storageBucketTaggingFromMap]
  | cons kv rest ih =>
    intro acc hdisj hnodup
    obtain ⟨k, v⟩ := kv
    have hcons : storageBucketTaggingFromMap ((k, v) :: rest)
        = ⟨k, v⟩ :: storageBucketTaggingFromMap rest := rfl
    rw [hcons, List.foldl_cons]
    show (storageBucketTaggingFromMap rest).foldl
      (fun mm t => goMapSet mm t.key t.value) (goMapSet acc k v)
        = acc ++ (k, v) :: rest
    rw [goMapSet_absent acc k v (hdisj (k, v) (List.mem_cons_self ..))]
    rw [List.map_cons, List.nodup_cons] at hnodup
    have hrest := ih (acc ++ [(k, v)]) ?_ hnodup.2
    · rw [hrest]
      simp
    · intro p hp
      rw [List.any_append]
      have h1 : acc.any (fun kv => kv.1 == p.1) = false :=
        hdisj p (List.mem_cons_of_mem _ hp)
      have h2 : (k == p.1) = false := by
        have : p.1 ∈ rest.map Prod.fst := List.mem_map_of_mem Prod.fst hp
        have hne : k ≠ p.1 := fun heq => hnodup.1 (heq ▸ this)
        exact beq_eq_false_iff_ne.mpr hne
      simp [h1, h2]

/-- C9: converting a non-empty unique-key map to a tag list and
normalising it back yields the same map, and normalisation returns the
nil map exactly on the empty tag list. -/
theorem tagging_roundtrip_and_nil_iff (m : List (String × String))
    (hne : m ≠ []) (hnodup : (m.map Prod.fst).Nodup) :
    storageBucketTaggingNormalize (storageBucketTaggingFromMap m) = some m ∧
    ∀ ts : List S3Tag, storageBucketTaggingNormalize ts = none ↔ ts = [] := by
  constructor
  · have hfold := tags_fold_append m [] (by simp) hnodup
    have hne' : (storageBucketTaggingFromMap m).isEmpty = false := by
      cases m with
      | nil => exact absurd rfl hne
      | cons kv r => simp [storageBucketTaggingFromMap]
    simp only [storageBucketTaggingNormalize, hne', Bool.false_eq_true,
      if_false, Option.some.injEq]
    simpa using hfold
  · intro ts
    constructor
    · intro h
      by_contra hne'
      have hempty : ts.isEmpty = false := by
        cases ts with
        | nil => exact absurd rfl hne'
        | cons t r => rfl
      simp [storageBucketTaggingNormalize, hempty] at h
    · rintro rfl
      rfl

/-- C9 witness: a concrete two-entry map round-trips, and the normalised
empty tag list is nil. -/
theorem tagging_roundtrip_and_nil_iff_witness :
    storageBucketTaggingNormalize (storageBucketTaggingFromMap
      [("env", "prod"), ("team", "storage")])
        = some [("env", "prod"), ("team", "storage")] ∧
    storageBucketTaggingNormalize [] = none := by
  have h := tagging_roundtrip_and_nil_iff [("env", "prod"), ("team", "storage")]
    (by decide) (by decide)
  exact ⟨h.1, (h.2 []).mpr rfl⟩

/-- a one-byte-per-character lower bound on the Go byte length -/
theorem length_le_goStrLen (name : List Char) :
    name.length ≤ goStrLen name := by
  induction name with
  | nil => simp [goStrLen]
  | cons c t ih =>
    simp only [goStrLen, List.map_cons, List.sum_cons, List.length_cons]
    simp only [goStrLen] at ih
    have := Char.utf8Size_pos c
    omega

/-- ASCII characters are one UTF-8 byte -/
theorem utf8Size_one_of_lt128 (c : Char) (h : c.toNat < 128) :
    c.utf8Size = 1 := by
  have hv : c.val ≤ (0x7F : UInt32) := by
    rw [UInt32.le_def]
    change c.val.toBitVec ≤ _
    rw [BitVec.le_def]
    have h1 : c.val.toBitVec.toNat < 128 := by
      simpa [Char.toNat, UInt32.toNat] using h
    have h2 : (UInt32.toBitVec 127).toNat = 127 := rfl
    omega
  simp only [Char.utf8Size]
  rw [if_pos]
  exact hv

/-- characters of the bucket-name class are ASCII -/
theorem allowedChar_lt128 (c : Char) (h : bucketNameAllowedChar c = true) :
    c.toNat < 128 := by
  simp only [bucketNameAllowedChar, Bool.or_eq_true, Bool.and_eq_true,
    decide_eq_true_eq, beq_iff_eq] at h
  rcases h with (((h | h) | h) | h) | h
  · omega
  · omega
  · omega
  · subst h; decide
  · subst h; decide

/-- for names inside the class, Go's byte length is the character count -/
theorem goStrLen_eq_length_of_allowed (name : List Char)
    (h : ∀ c ∈ name, bucketNameAllowedChar c = true) :
    goStrLen name = name.length := by
  induction name with
  | nil => simp [goStrLen]
  | cons c t ih =>
    simp only [goStrLen, List.map_cons, List.sum_cons, List.length_cons]
    rw [utf8Size_one_of_lt128 c (allowedChar_lt128 c (h c (by simp)))]
    have := ih fun x hx => h x (List.mem_cons_of_mem _ hx)
    simp only [goStrLen] at this
    omega

/-- C7: a bucket name longer than 63 characters, shorter than 3
characters, or containing a character outside `[0-9a-zA-Z-.]` makes
`validateS3BucketName` fail and Create return that validation error with
no network call (the result is the same for every server behaviour);
a name meeting all three conditions validates cleanly. -/
theorem bucketName_validation (name : List Char) :
    ((63 < name.length ∨ name.length < 3 ∨
        (∃ c ∈ name, bucketNameAllowedChar c = false)) →
      ∃ e, validateS3BucketName name = some e ∧
        ∀ (M : GoNumModel) (resp resp' : CreateResponses)
          (changes : String → Bool) (order : List String) (gen : String)
          (d : ResourceData), d.bucket = String.mk name → name ≠ [] →
          bucketCreate M resp changes order gen d
            = (d, some (.wrapped "error validating Storage Bucket name" e)) ∧
          bucketCreate M resp changes order gen d
            = bucketCreate M resp' changes order gen d) ∧
    ((name.length ≤ 63 ∧ 3 ≤ name.length ∧
        ∀ c ∈ name, bucketNameAllowedChar c = true) →
      validateS3BucketName name = none) := by
  constructor
  · intro hbad
    have hsome : ∃ e, validateS3BucketName name = some e := by
      by_cases h1 : 63 < goStrLen name
      · exact ⟨_, by unfold validateS3BucketName; rw [if_pos h1]⟩
      · by_cases h2 : goStrLen name < 3
        · exact ⟨_, by unfold validateS3BucketName; rw [if_neg h1, if_pos h2]⟩
        · have hex : ∃ c ∈ name, bucketNameAllowedChar c = false := by
            rcases hbad with hb | hb | hb
            · exact absurd (length_le_goStrLen name) (by omega)
            · by_contra hno
              push_neg at hno
              have : goStrLen name = name.length :=
                goStrLen_eq_length_of_allowed name fun c hc => by
                  have := hno c hc
                  simp only [Bool.not_eq_false] at this
                  exact this
              omega
            · exact hb
          have hall : name.all bucketNameAllowedChar = false := by
            obtain ⟨c, hc, hcbad⟩ := hex
            rcases hres : name.all bucketNameAllowedChar with _ | _
            · rfl
            · rw [List.all_eq_true] at hres
              rw [hres c hc] at hcbad
              exact absurd hcbad (by simp)
          exact ⟨_, by
            unfold validateS3BucketName
            rw [if_neg h1, if_neg h2, if_pos (by rw [hall]; simp)]⟩
    obtain ⟨e, he⟩ := hsome
    refine ⟨e, he, ?_⟩
    intro M resp resp' changes order gen d hb hne
    have hbne : d.bucket ≠ "" := by
      rw [hb]
      intro hmk
      exact hne (by simpa using congrArg String.data hmk)
    have hres : ∀ r : CreateResponses,
        bucketCreate M r changes order gen d
          = (d, some (.wrapped "error validating Storage Bucket name" e)) := by
      intro r
      rw [hb] at hbne
      simp only [bucketCreate, hb, String.toList, if_pos hbne]
      rw [he]
    exact ⟨hres resp, (hres resp).trans (hres resp').symm⟩
  · rintro ⟨h63, h3, hall⟩
    have hlen : goStrLen name = name.length :=
      goStrLen_eq_length_of_allowed name hall
    have hne : name.isEmpty = false := by
      cases name with
      | nil => simp at h3
      | cons c t => rfl
    unfold validateS3BucketName
    rw [if_neg (by omega), if_neg (by omega),
      if_neg (by simp [hne, List.all_eq_true.mpr hall])]

/-- C7 witness: `ab!` fails validation and Create surfaces the failure;
`abc` validates. -/
theorem bucketName_validation_witness :
    (validateS3BucketName "ab!".toList).isSome = true ∧
    ((bucketCreate unitNumModel okCreateResponses noChanges
      updateExtendedFields "gen" ⟨"", "ab!", "", false, true, []⟩).2).isSome
        = true ∧
    validateS3BucketName "abc".toList = none := by
  obtain ⟨e, he, hc⟩ := (bucketName_validation "ab!".toList).1
    (Or.inr (Or.inr (by decide)))
  have h2 := hc unitNumModel okCreateResponses okCreateResponses noChanges
    updateExtendedFields "gen" ⟨"", "ab!", "", false, true, []⟩ rfl (by decide)
  refine ⟨by rw [he]; rfl, by rw [h2.1]; rfl, ?_⟩
  exact (bucketName_validation "abc".toList).2 ⟨by decide, by decide, by decide⟩

/-- C6 counterexample: the creation call succeeds, yet because the
trailing Read observes a 404 and clears the identifier, Create returns
success with an *empty* id instead of the bucket name. -/
theorem create_id_cleared_by_notFound_read :
    createThenReadNotFoundResponses.create = none ∧
    (bucketCreate unitNumModel createThenReadNotFoundResponses noChanges
      updateExtendedFields "gen" newCreateData).1.id = "" ∧
    (bucketCreate unitNumModel createThenReadNotFoundResponses noChanges
      updateExtendedFields "gen" newCreateData).2 = none ∧
    (if newCreateData.bucket ≠ "" then newCreateData.bucket else "gen")
      = "mybucket" := by
  refine ⟨rfl, ?_, ?_, by decide⟩ <;> rfl

/-- a not-found-free error never triggers the clearing handler -/
theorem handleNF_of_not (d : ResourceData) (e : GoError)
    (h : notFoundStyle e = false) :
    handleS3BucketNotFoundError d e = (d, false) := by
  simp [handleS3BucketNotFoundError, h]

/-- the basic update leaves the resource state untouched -/
theorem bucketUpdateBasic_fst (resp : UpdateBasicResponses)
    (changes : String → Bool) (d : ResourceData) :
    (bucketUpdateBasic resp changes d).1 = d := by
  unfold bucketUpdateBasic
  cases resp.client <;> rfl

/-- the https half of the extended update preserves the id when neither
https call fails with a not-found-style error -/
theorem bucketUpdateExtendedHttps_id (resp : UpdateExtResponses)
    (changes : String → Bool) (called : Bool) (paths : List String)
    (d1 : ResourceData)
    (h2 : errNotNF resp.setHTTPS) (h3 : errNotNF resp.deleteHTTPS) :
    (bucketUpdateExtendedHttps resp changes called paths d1).d.id = d1.id := by
  unfold bucketUpdateExtendedHttps
  by_cases hch : changes "https"
  · simp only [hch, Bool.not_true, Bool.false_eq_true, if_false]
    by_cases hcf : resp.httpsConfigured
    · rw [if_pos hcf]
      cases hs : resp.setHTTPS with
      | some e => simp [handleNF_of_not d1 e (h2 e hs)]
      | none =>
        cases ho : resp.setHTTPSOpErr with
        | some cm => obtain ⟨code, msg⟩ := cm; rfl
        | none => rfl
    · rw [if_neg hcf]
      cases hs : resp.deleteHTTPS with
      | some e => simp [handleNF_of_not d1 e (h3 e hs)]
      | none =>
        cases ho : resp.deleteHTTPSOpErr with
        | some cm => obtain ⟨code, msg⟩ := cm; rfl
        | none => rfl
  · simp [hch]

/-- the extended update preserves the id when no involved call fails
with a not-found-style error -/
theorem bucketUpdateExtended_id (resp : UpdateExtResponses)
    (changes : String → Bool) (order : List String) (d : ResourceData)
    (h1 : errNotNF resp.update) (h2 : errNotNF resp.setHTTPS)
    (h3 : errNotNF resp.deleteHTTPS) :
    (bucketUpdateExtended resp changes order d).d.id = d.id := by
  unfold bucketUpdateExtended
  by_cases hid : d.id = ""
  · simp [hid]
  · rw [if_neg hid]
    by_cases hp : (updateExtendedPaths changes d order).isEmpty
    · rw [if_pos hp]
      exact bucketUpdateExtendedHttps_id resp changes false _ d h2 h3
    · rw [if_neg hp]
      cases hu : resp.update with
      | some e => simp [handleNF_of_not d e (h1 e hu)]
      | none =>
        cases ho : resp.updateOpErr with
        | some cm => obtain ⟨code, msg⟩ := cm; rfl
        | none =>
          exact bucketUpdateExtendedHttps_id resp changes true _ d h2 h3

/-- chaining preserves any id invariant the step and the rest keep -/
theorem StepRes_seq_id (r : StepRes)
    (rest : ResourceData → ResourceData × Option GoError)
    (hrest : ∀ d', (rest d').1.id = d'.id) :
    (r.seq rest).1.id = r.data.id := by
  cases r with
  | done d err => rfl
  | next d => exact hrest d

theorem readPolicyStep_id (M : GoNumModel) (resp : ReadResponses)
    (d : ResourceData) : (readPolicyStep M resp d).data.id = d.id := by
  unfold readPolicyStep
  repeat' split
  all_goals rfl

theorem readCorsStep_id (resp : ReadResponses) (d : ResourceData)
    (h : errNotNF resp.getCors) :
    (readCorsStep resp d).data.id = d.id := by
  unfold readCorsStep
  cases hc : resp.getCors with
  | none => rfl
  | some e =>
    dsimp only
    rw [handleNF_of_not d e (h e hc)]
    repeat' split
    all_goals first
      | rfl
      | simp_all

theorem readWebsiteStep_id (resp : ReadResponses) (d : ResourceData)
    (h : errNotNF resp.getWebsite) :
    (readWebsiteStep resp d).data.id = d.id := by
  unfold readWebsiteStep
  cases hc : resp.getWebsite with
  | none => rfl
  | some e =>
    dsimp only
    rw [handleNF_of_not d e (h e hc)]
    repeat' split
    all_goals first
      | rfl
      | simp_all

theorem readAclStep_id (resp : ReadResponses) (d : ResourceData)
    (h : ∀ e, resp.getAcl = some e → isAWSErr e "NoSuchBucket" "" = false) :
    (readAclStep resp d).data.id = d.id := by
  unfold readAclStep
  cases hc : resp.getAcl with
  | none => rfl
  | some e =>
    dsimp only
    rw [h e hc]
    repeat' split
    all_goals first
      | rfl
      | simp_all

theorem readVersioningStep_id (resp : ReadResponses) (d : ResourceData) :
    (readVersioningStep resp d).data.id = d.id := by
  unfold readVersioningStep
  repeat' split
  all_goals rfl

theorem readObjectLockStep_id (resp : ReadResponses) (d : ResourceData) :
    (readObjectLockStep resp d).data.id = d.id := by
  unfold readObjectLockStep
  repeat' split
  all_goals rfl

theorem readLoggingStep_id (resp : ReadResponses) (d : ResourceData) :
    (readLoggingStep resp d).data.id = d.id := by
  unfold readLoggingStep
  repeat' split
  all_goals rfl

theorem readLifecycleStep_id (resp : ReadResponses) (d : ResourceData) :
    (readLifecycleStep resp d).data.id = d.id := by
  unfold readLifecycleStep
  repeat' split
  all_goals rfl

theorem readEncryptionStep_id (resp : ReadResponses) (d : ResourceData) :
    (readEncryptionStep resp d).data.id = d.id := by
  unfold readEncryptionStep
  repeat' split
  all_goals rfl

theorem readTaggingEnd_id (resp : ReadResponses) (d : ResourceData) :
    (readTaggingEnd resp d).1.id = d.id := by
  unfold readTaggingEnd
  cases resp.getTagging <;> rfl

/-- the attribute-read chain preserves the id when neither the CORS nor
the website read fails not-found-style and the ACL read never reports
`NoSuchBucket` -/
theorem bucketReadBasicChain_id (M : GoNumModel) (resp : ReadResponses)
    (h5 : errNotNF resp.getCors) (h6 : errNotNF resp.getWebsite)
    (h7 : ∀ e, resp.getAcl = some e → isAWSErr e "NoSuchBucket" "" = false) :
    ∀ d2, (bucketReadBasicChain M resp d2).1.id = d2.id := by
  intro d2
  unfold bucketReadBasicChain
  have henc : ∀ d', ((readEncryptionStep resp d').seq
      (readTaggingEnd resp)).1.id = d'.id := fun d' =>
    (StepRes_seq_id _ _ (readTaggingEnd_id resp)).trans
      (readEncryptionStep_id resp d')
  have hlif : ∀ d', ((readLifecycleStep resp d').seq fun d10 =>
      (readEncryptionStep resp d10).seq (readTaggingEnd resp)).1.id
        = d'.id := fun d' =>
    (StepRes_seq_id _ _ henc).trans (readLifecycleStep_id resp d')
  have hlog : ∀ d', ((readLoggingStep resp d').seq fun d9 =>
      (readLifecycleStep resp d9).seq fun d10 =>
      (readEncryptionStep resp d10).seq (readTaggingEnd resp)).1.id
        = d'.id := fun d' =>
    (StepRes_seq_id _ _ hlif).trans (readLoggingStep_id resp d')
  have holk : ∀ d', ((readObjectLockStep resp d').seq fun d8 =>
      (readLoggingStep resp d8).seq fun d9 =>
      (readLifecycleStep resp d9).seq fun d10 =>
      (readEncryptionStep resp d10).seq (readTaggingEnd resp)).1.id
        = d'.id := fun d' =>
    (StepRes_seq_id _ _ hlog).trans (readObjectLockStep_id resp d')
  have hver : ∀ d', ((readVersioningStep resp d').seq fun d7 =>
      (readObjectLockStep resp d7).seq fun d8 =>
      (readLoggingStep resp d8).seq fun d9 =>
      (readLifecycleStep resp d9).seq fun d10 =>
      (readEncryptionStep resp d10).seq (readTaggingEnd resp)).1.id
        = d'.id := fun d' =>
    (StepRes_seq_id _ _ holk).trans (readVersioningStep_id resp d')
  have hacl : ∀ d', ((readAclStep resp d').seq fun d6 =>
      (readVersioningStep resp d6).seq fun d7 =>
      (readObjectLockStep resp d7).seq fun d8 =>
      (readLoggingStep resp d8).seq fun d9 =>
      (readLifecycleStep resp d9).seq fun d10 =>
      (readEncryptionStep resp d10).seq (readTaggingEnd resp)).1.id
        = d'.id := fun d' =>
    (StepRes_seq_id _ _ hver).trans (readAclStep_id resp d' h7)
  have hweb : ∀ d', ((readWebsiteStep resp d').seq fun d5 =>
      (let d5b := if resp.websiteConfigured then
          (d5.setAttr "website_endpoint").setAttr "website_domain"
        else d5
       (readAclStep resp d5b).seq fun d6 =>
       (readVersioningStep resp d6).seq fun d7 =>
       (readObjectLockStep resp d7).seq fun d8 =>
       (readLoggingStep resp d8).seq fun d9 =>
       (readLifecycleStep resp d9).seq fun d10 =>
       (readEncryptionStep resp d10).seq (readTaggingEnd resp))).1.id
        = d'.id := by
    intro d'
    refine (StepRes_seq_id _ _ ?_).trans (readWebsiteStep_id resp d' h6)
    intro d5
    by_cases hwc : resp.websiteConfigured
    · simp only [hwc, if_true]
      exact hacl ((d5.setAttr "website_endpoint").setAttr "website_domain")
    · simp only [hwc, Bool.false_eq_true, if_false]
      exact hacl d5
  have hcors : ∀ d', ((readCorsStep resp d').seq fun d4 =>
      (readWebsiteStep resp d4).seq fun d5 =>
      (let d5b := if resp.websiteConfigured then
          (d5.setAttr "website_endpoint").setAttr "website_domain"
        else d5
       (readAclStep resp d5b).seq fun d6 =>
       (readVersioningStep resp d6).seq fun d7 =>
       (readObjectLockStep resp d7).seq fun d8 =>
       (readLoggingStep resp d8).seq fun d9 =>
       (readLifecycleStep resp d9).seq fun d10 =>
       (readEncryptionStep resp d10).seq (readTaggingEnd resp))).1.id
        = d'.id := fun d' =>
    (StepRes_seq_id _ _ hweb).trans (readCorsStep_id resp d' h5)
  exact (StepRes_seq_id _ _ hcors).trans (readPolicyStep_id M resp d2)

/-- the basic read preserves the id when its lookup and per-attribute
reads never report not-found -/
theorem bucketReadBasic_id (M : GoNumModel) (resp : ReadResponses)
    (d : ResourceData)
    (h4 : errNotNF resp.headBucket) (h5 : errNotNF resp.getCors)
    (h6 : errNotNF resp.getWebsite)
    (h7 : ∀ e, resp.getAcl = some e → isAWSErr e "NoSuchBucket" "" = false) :
    (bucketReadBasic M resp d).1.id = d.id := by
  unfold bucketReadBasic
  cases hcl : resp.client with
  | some e => rfl
  | none =>
    cases hhb : resp.headBucket with
    | some e => simp [handleNF_of_not d e (h4 e hhb)]
    | none =>
      dsimp only
      rw [bucketReadBasicChain_id M resp h5 h6 h7]
      by_cases hb : d.bucket = ""
      · simp [hb, ResourceData.setAttr, ResourceData.setBucket]
      · simp [hb, ResourceData.setAttr]

/-- the extended read preserves the id when its `Get` does not report
not-found -/
theorem bucketReadExtended_id (resp : ReadExtResponses) (d : ResourceData)
    (h : errNotNF resp.getBucket) :
    (bucketReadExtended resp d).1.id = d.id := by
  unfold bucketReadExtended
  by_cases hid : d.id = ""
  · simp [hid]
  · rw [if_neg hid]
    cases hg : resp.getBucket with
    | some e => simp [handleNF_of_not d e (h e hg)]
    | none =>
      cases resp.getHTTPS with
      | some e =>
        dsimp only
        split
        · rfl
        · rfl
      | none =>
        dsimp only
        split
        · rfl
        · rfl

/-- Read preserves the id when no involved call reports not-found -/
theorem bucketRead_id (M : GoNumModel) (resp : ReadResponses)
    (respExt : ReadExtResponses) (d : ResourceData)
    (h4 : errNotNF resp.headBucket) (h5 : errNotNF resp.getCors)
    (h6 : errNotNF resp.getWebsite)
    (h7 : ∀ e, resp.getAcl = some e → isAWSErr e "NoSuchBucket" "" = false)
    (h8 : errNotNF respExt.getBucket) :
    (bucketRead M resp respExt d).1.id = d.id := by
  unfold bucketRead
  cases hb : bucketReadBasic M resp d with
  | mk d1 r =>
    have hid1 : d1.id = d.id := by
      have := bucketReadBasic_id M resp d h4 h5 h6 h7
      rw [hb] at this
      exact this
    cases r with
    | some e => exact hid1
    | none =>
      dsimp only
      exact (bucketReadExtended_id respExt d1 h8).trans hid1

/-- Update preserves the id when no involved call reports not-found -/
theorem bucketUpdate_id (M : GoNumModel) (basicResp : UpdateBasicResponses)
    (extResp : UpdateExtResponses) (readResp : ReadResponses)
    (readExtResp : ReadExtResponses) (changes : String → Bool)
    (order : List String) (d : ResourceData)
    (h1 : errNotNF extResp.update) (h2 : errNotNF extResp.setHTTPS)
    (h3 : errNotNF extResp.deleteHTTPS)
    (h4 : errNotNF readResp.headBucket) (h5 : errNotNF readResp.getCors)
    (h6 : errNotNF readResp.getWebsite)
    (h7 : ∀ e, readResp.getAcl = some e →
      isAWSErr e "NoSuchBucket" "" = false)
    (h8 : errNotNF readExtResp.getBucket) :
    (bucketUpdate M basicResp extResp readResp readExtResp changes order
      d).1.id = d.id := by
  unfold bucketUpdate
  cases hub : bucketUpdateBasic basicResp changes d with
  | mk d1 r1 =>
    have hd1 : d1 = d := by
      have := bucketUpdateBasic_fst basicResp changes d
      rw [hub] at this
      exact this
    subst hd1
    cases r1 with
    | some e => rfl
    | none =>
      dsimp only
      have hext := bucketUpdateExtended_id extResp changes order d1 h1 h2 h3
      cases hr : (bucketUpdateExtended extResp changes order d1).err with
      | some e => exact hext
      | none =>
        exact (bucketRead_id M readResp readExtResp _ h4 h5 h6 h7 h8).trans
          hext

/-- C6 (amended): immediately after a successful creation call, Create
sets the id to the bucket name, and the id still equals the bucket name
when Create returns — for *every* error outcome of the subsequent
Update/Read steps — provided no subsequent call observed the bucket as
absent (no 404/NotFound response, and no `NoSuchBucket` from the ACL
read); such a not-found observation clears the identifier instead. -/
theorem create_id_stable_without_notFound (M : GoNumModel)
    (resp : CreateResponses) (changes : String → Bool)
    (order : List String) (gen : String) (d : ResourceData)
    (hvalid : validateS3BucketName
      (if d.bucket ≠ "" then d.bucket else gen).toList = none)
    (hcreate : resp.create = none)
    (h1 : errNotNF resp.ext.update) (h2 : errNotNF resp.ext.setHTTPS)
    (h3 : errNotNF resp.ext.deleteHTTPS)
    (h4 : errNotNF resp.read.headBucket) (h5 : errNotNF resp.read.getCors)
    (h6 : errNotNF resp.read.getWebsite)
    (h7 : ∀ e, resp.read.getAcl = some e →
      isAWSErr e "NoSuchBucket" "" = false)
    (h8 : errNotNF resp.readExt.getBucket) :
    (bucketCreate M resp changes order gen d).1.id
      = (if d.bucket ≠ "" then d.bucket else gen) := by
  simp only [bucketCreate, hvalid, hcreate]
  rw [bucketUpdate_id M resp.basic resp.ext resp.read resp.readExt changes
    order _ h1 h2 h3 h4 h5 h6 h7 h8]
  rfl

/-- C6 (amended) witness: with everything succeeding, Create ends with
the id equal to the configured bucket name. -/
theorem create_id_stable_without_notFound_witness :
    (bucketCreate unitNumModel okCreateResponses noChanges
      updateExtendedFields "gen" newCreateData).1.id = "mybucket" := by
  have h := create_id_stable_without_notFound unitNumModel okCreateResponses
    noChanges updateExtendedFields "gen" newCreateData (by decide) rfl
    (fun e he => by cases he) (fun e he => by cases he)
    (fun e he => by cases he) (fun e he => by cases he)
    (fun e he => by cases he) (fun e he => by cases he)
    (fun e he => by cases he) (fun e he => by cases he)
  exact h.trans (by decide)

/-! ## Theorems about the `encoding/json` model -/

theorem char_toNat_inj {a b : Char} (h : a.toNat = b.toNat) : a = b := by
  rw [← Char.ofNat_toNat a, ← Char.ofNat_toNat b, h]

theorem keyLt_trans : ∀ a b c : List Char,
    keyLt a b = true → keyLt b c = true → keyLt a c = true := by
  intro a
  induction a with
  | nil =>
    intro b c hab hbc
    cases c with
    | nil => cases b <;> simp [keyLt] at hbc
    | cons z zs => simp [keyLt]
  | cons x xs ih =>
    intro b c hab hbc
    cases b with
    | nil => simp [keyLt] at hab
    | cons y ys =>
      cases c with
      | nil => simp [keyLt] at hbc
      | cons z zs =>
        simp only [keyLt, Bool.or_eq_true, Bool.and_eq_true,
          decide_eq_true_eq, beq_iff_eq] at hab hbc ⊢
        rcases hab with h1 | ⟨rfl, h2⟩
        · rcases hbc with h3 | ⟨rfl, h4⟩
          · exact Or.inl (by omega)
          · exact Or.inl h1
        · rcases hbc with h3 | ⟨rfl, h4⟩
          · exact Or.inl h3
          · exact Or.inr ⟨rfl, ih ys zs h2 h4⟩

theorem keyLt_irrefl : ∀ a : List Char, keyLt a a = false := by
  intro a
  induction a with
  | nil => rfl
  | cons x xs ih => simp [keyLt, ih]

theorem keyLt_asymm (a b : List Char) (h : keyLt a b = true) :
    keyLt b a = false := by
  by_contra habs
  rw [Bool.not_eq_false] at habs
  have := keyLt_trans a b a h habs
  rw [keyLt_irrefl] at this
  cases this

theorem keyLt_ne (a b : List Char) (h : keyLt a b = true) : a ≠ b := by
  intro habs
  subst habs
  rw [keyLt_irrefl] at h
  cases h

theorem keyLt_connex : ∀ a b : List Char,
    keyLt a b = false → a ≠ b → keyLt b a = true := by
  intro a
  induction a with
  | nil =>
    intro b h1 h2
    cases b with
    | nil => exact absurd rfl h2
    | cons y ys => simp [keyLt] at h1
  | cons x xs ih =>
    intro b h1 h2
    cases b with
    | nil => simp [keyLt]
    | cons y ys =>
      simp only [keyLt, Bool.or_eq_false_iff, decide_eq_false_iff_not] at h1
      obtain ⟨hxy, hand⟩ := h1
      by_cases hx : x = y
      · subst hx
        have hys : keyLt xs ys = false := by
          simpa using hand
        have hne : xs ≠ ys := fun hh => h2 (by rw [hh])
        simp only [keyLt, Bool.or_eq_true, Bool.and_eq_true,
          decide_eq_true_eq, beq_iff_eq]
        exact Or.inr ⟨by trivial, ih ys hys hne⟩
      · have : x.toNat ≠ y.toNat := fun hh => hx (char_toNat_inj hh)
        simp only [keyLt, Bool.or_eq_true, decide_eq_true_eq]
        exact Or.inl (by omega)

theorem objInsert_sorted {ν : Type} (k : List Char) (v : JVal ν) :
    ∀ ms, keysSorted ms = true →
      keysSorted (objInsert k v ms) = true ∧
      ∀ k0, keyLt k0 k = true → keyLtHead k0 ms = true →
        keyLtHead k0 (objInsert k v ms) = true := by
  intro ms
  induction ms with
  | nil =>
    intro _
    refine ⟨rfl, ?_⟩
    intro k0 hk0 _
    simpa [objInsert, keyLtHead] using hk0
  | cons p rest ih =>
    obtain ⟨k1, v1⟩ := p
    intro hsorted
    simp only [keysSorted, Bool.and_eq_true] at hsorted
    obtain ⟨hhead, hrest⟩ := hsorted
    by_cases hlt : keyLt k k1 = true
    · constructor
      · simp only [objInsert, if_pos hlt, keysSorted, keyLtHead,
          Bool.and_eq_true]
        exact ⟨hlt, hhead, hrest⟩
      · intro k0 hk0 _
        simp only [objInsert, if_pos hlt, keyLtHead]
        exact hk0
    · rw [Bool.not_eq_true] at hlt
      by_cases heq : (k == k1) = true
      · have hk : k = k1 := beq_iff_eq.mp heq
        subst hk
        constructor
        · simp only [objInsert, hlt, Bool.false_eq_true, if_false, heq,
            if_true, keysSorted, Bool.and_eq_true]
          exact ⟨hhead, hrest⟩
        · intro k0 hk0 _
          simp only [objInsert, hlt, Bool.false_eq_true, if_false, heq,
            if_true, keyLtHead]
          exact hk0
      · rw [Bool.not_eq_true] at heq
        have hgt : keyLt k1 k = true :=
          keyLt_connex k k1 hlt (beq_eq_false_iff_ne.mp heq)
        obtain ⟨ihs, ihh⟩ := ih hrest
        constructor
        · simp only [objInsert, hlt, Bool.false_eq_true, if_false, heq,
            keysSorted, Bool.and_eq_true]
          exact ⟨ihh k1 hgt hhead, ihs⟩
        · intro k0 hk0 hhead0
          simp only [objInsert, hlt, Bool.false_eq_true, if_false, heq]
          simpa [keyLtHead] using hhead0

theorem objInsert_wfMembers (M : GoNumModel) (k : List Char)
    (v : JVal M.Num) (hv : jWF M v = true) :
    ∀ ms, jWFMembers M ms = true →
      jWFMembers M (objInsert k v ms) = true := by
  intro ms
  induction ms with
  | nil => intro _; simp [objInsert, jWFMembers, hv]
  | cons p rest ih =>
    obtain ⟨k1, v1⟩ := p
    intro h
    simp only [jWFMembers, Bool.and_eq_true] at h
    by_cases hlt : keyLt k k1 = true
    · simp [objInsert, hlt, jWFMembers, hv, h.1, h.2]
    · rw [Bool.not_eq_true] at hlt
      by_cases heq : (k == k1) = true
      · simp [objInsert, hlt, heq, jWFMembers, hv, h.2]
      · rw [Bool.not_eq_true] at heq
        simp [objInsert, hlt, heq, jWFMembers, h.1, ih h.2]

theorem objInsert_append {ν : Type} (k : List Char) (v : JVal ν) :
    ∀ acc, (∀ p ∈ acc, keyLt p.1 k = true) →
      objInsert k v acc = acc ++ [(k, v)] := by
  intro acc
  induction acc with
  | nil => intro _; rfl
  | cons p rest ih =>
    obtain ⟨k1, v1⟩ := p
    intro h
    have h1 : keyLt k1 k = true := h (k1, v1) (List.mem_cons_self ..)
    have hlt : keyLt k k1 = false := keyLt_asymm _ _ h1
    have hne : (k == k1) = false :=
      beq_eq_false_iff_ne.mpr fun hh => keyLt_ne k1 k h1 hh.symm
    simp [objInsert, hlt, hne, ih fun p hp => h p (List.mem_cons_of_mem _ hp)]

mutual

/-- Every value the parser produces is well-formed: its object member
lists are strictly key-sorted. -/
theorem jParseVal_wf (M : GoNumModel) :
    ∀ fuel cs j rest, jParseVal M fuel cs = some (j, rest) →
      jWF M j = true
  | 0, cs, j, rest, h => by simp [jParseVal] at h
  | fuel + 1, cs, j, rest, h => by
    simp only [jParseVal] at h
    repeat' split at h
    any_goals cases h
    any_goals rfl
    · exact jParseElems_wf M fuel _ _ _ (by assumption)
    · rw [show jWF M (JVal.obj _) = (keysSorted _ && jWFMembers M _) from rfl,
        Bool.and_eq_true]
      exact jParseMembers_wf M fuel [] _ _ _ rfl rfl (by assumption)

theorem jParseElems_wf (M : GoNumModel) :
    ∀ fuel cs es rest, jParseElems M fuel cs = some (es, rest) →
      jWFElems M es = true
  | 0, cs, es, rest, h => by simp [jParseElems] at h
  | fuel + 1, cs, es, rest, h => by
    simp only [jParseElems] at h
    repeat' split at h
    any_goals cases h
    · rw [show jWFElems M (_ :: _) = (jWF M _ && jWFElems M _) from rfl,
        Bool.and_eq_true]
      exact ⟨jParseVal_wf M fuel _ _ _ (by assumption),
        jParseElems_wf M fuel _ _ _ (by assumption)⟩
    · rw [show jWFElems M (_ :: _) = (jWF M _ && jWFElems M _) from rfl,
        Bool.and_eq_true]
      exact ⟨jParseVal_wf M fuel _ _ _ (by assumption), rfl⟩

theorem jParseMembers_wf (M : GoNumModel) :
    ∀ fuel acc cs ms rest,
      keysSorted acc = true → jWFMembers M acc = true →
      jParseMembers M fuel acc cs = some (ms, rest) →
      keysSorted ms = true ∧ jWFMembers M ms = true
  | 0, acc, cs, ms, rest, _, _, h => by simp [jParseMembers] at h
  | fuel + 1, acc, cs, ms, rest, hacc1, hacc2, h => by
    simp only [jParseMembers] at h
    repeat' split at h
    any_goals cases h
    · exact jParseMembers_wf M fuel _ _ _ _
        ((objInsert_sorted _ _ acc hacc1).1)
        (objInsert_wfMembers M _ _
          (jParseVal_wf M fuel _ _ _ (by assumption)) acc hacc2) h
    · exact ⟨(objInsert_sorted _ _ acc hacc1).1,
        objInsert_wfMembers M _ _
          (jParseVal_wf M fuel _ _ _ (by assumption)) acc hacc2⟩

end

theorem jHexVal_jHexDigit (d : Nat) (h : d < 16) :
    jHexVal (jHexDigit d) = some d := by
  interval_cases d <;> decide

/-- a non-surrogate `\uXXXX` escape decodes to its scalar value -/
theorem jLexStringBody_uEscape (a b c d : Char) (n : Nat) (rest : List Char)
    (hhex : jHex4 a b c d = some n)
    (hns : (decide (0xD800 ≤ n) && decide (n < 0xE000)) = false) :
    jLexStringBody ('\\' :: 'u' :: a :: b :: c :: d :: rest)
      = jConsRes (Char.ofNat n) (jLexStringBody rest) := by
  simp [jLexStringBody, hhex, hns]

/-- decoding one marshalled character undoes the escaping -/
theorem jLexStringBody_escape (c : Char) (rest : List Char) :
    jLexStringBody (jEscapeChar c ++ rest) = jConsRes c (jLexStringBody rest) := by
  unfold jEscapeChar
  by_cases h1 : (c == '"') = true
  · rw [if_pos h1, beq_iff_eq.mp h1]
    simp [jLexStringBody, jUnescape]
  rw [if_neg h1]
  by_cases h2 : (c == '\\') = true
  · rw [if_pos h2, beq_iff_eq.mp h2]
    simp [jLexStringBody, jUnescape]
  rw [if_neg h2]
  by_cases h3 : (c == '\n') = true
  · rw [if_pos h3, beq_iff_eq.mp h3]
    simp [jLexStringBody, jUnescape]
  rw [if_neg h3]
  by_cases h4 : (c == '\r') = true
  · rw [if_pos h4, beq_iff_eq.mp h4]
    simp [jLexStringBody, jUnescape]
  rw [if_neg h4]
  by_cases h5 : (c == '\t') = true
  · rw [if_pos h5, beq_iff_eq.mp h5]
    simp [jLexStringBody, jUnescape]
  rw [if_neg h5]
  by_cases h6 : (c == '<') = true
  · rw [if_pos h6, beq_iff_eq.mp h6]
    simp only [List.cons_append, List.nil_append]
    rw [jLexStringBody_uEscape '0' '0' '3' 'c' 60 rest (by decide) (by decide)]
  rw [if_neg h6]
  by_cases h7 : (c == '>') = true
  · rw [if_pos h7, beq_iff_eq.mp h7]
    simp only [List.cons_append, List.nil_append]
    rw [jLexStringBody_uEscape '0' '0' '3' 'e' 62 rest (by decide) (by decide)]
  rw [if_neg h7]
  by_cases h8 : (c == '&') = true
  · rw [if_pos h8, beq_iff_eq.mp h8]
    simp only [List.cons_append, List.nil_append]
    rw [jLexStringBody_uEscape '0' '0' '2' '6' 38 rest (by decide) (by decide)]
  rw [if_neg h8]
  by_cases h9 : c.toNat < 0x20
  · rw [if_pos (by simpa using h9)]
    have hhex : jHex4 '0' '0' (jHexDigit (c.toNat / 16))
        (jHexDigit (c.toNat % 16)) = some c.toNat := by
      have hq := jHexVal_jHexDigit (c.toNat / 16) (by omega)
      have hr := jHexVal_jHexDigit (c.toNat % 16) (by omega)
      simp only [jHex4, hq, hr, show jHexVal '0' = some 0 from by decide,
        Option.some.injEq]
      omega
    simp only [List.cons_append, List.nil_append]
    rw [jLexStringBody_uEscape _ _ _ _ _ rest hhex
      (by simp only [Bool.and_eq_false_iff, decide_eq_false_iff_not]
          left
          omega)]
    rw [Char.ofNat_toNat]
  rw [if_neg (by simpa using h9)]
  by_cases h10 : (c.toNat == 0x2028) = true
  · rw [if_pos h10]
    have hc : c = Char.ofNat 0x2028 := by
      rw [← Char.ofNat_toNat c, beq_iff_eq.mp h10]
    simp only [List.cons_append, List.nil_append]
    rw [hc, jLexStringBody_uEscape '2' '0' '2' '8' 0x2028 rest (by decide)
      (by decide)]
  rw [if_neg h10]
  by_cases h11 : (c.toNat == 0x2029) = true
  · rw [if_pos h11]
    have hc : c = Char.ofNat 0x2029 := by
      rw [← Char.ofNat_toNat c, beq_iff_eq.mp h11]
    simp only [List.cons_append, List.nil_append]
    rw [hc, jLexStringBody_uEscape '2' '0' '2' '9' 0x2029 rest (by decide)
      (by decide)]
  rw [if_neg h11]
  rw [List.singleton_append, jLexStringBody.eq_def]
  simp only [h1, Bool.false_eq_true, if_false, h2]
  rw [if_neg (by simpa using h9)]

/-- decoding a marshalled string body stops exactly at the closing
quote and recovers the string -/
theorem jLexStringBody_flatMap (s : List Char) (rest : List Char) :
    jLexStringBody (s.flatMap jEscapeChar ++ '"' :: rest) = some (s, rest) := by
  induction s with
  | nil =>
    rw [List.flatMap_nil, List.nil_append, jLexStringBody.eq_def]
    simp
  | cons c t ih =>
    rw [List.flatMap_cons, List.append_assoc, jLexStringBody_escape, ih]
    rfl

theorem numHead_toNat (c : Char) (hc : (c == '-' || jIsDigit c) = true) :
    c.toNat = 45 ∨ (48 ≤ c.toNat ∧ c.toNat ≤ 57) := by
  simp only [Bool.or_eq_true, beq_iff_eq] at hc
  rcases hc with rfl | hd
  · exact Or.inl rfl
  · simp only [jIsDigit, Bool.and_eq_true, decide_eq_true_eq] at hd
    obtain ⟨h1, h2⟩ := hd
    rw [Char.le_def, UInt32.le_def, BitVec.le_def] at h1 h2
    have h48 : ('0'.val.toBitVec).toNat = 48 := rfl
    have h57 : ('9'.val.toBitVec).toNat = 57 := rfl
    have hcid : c.toNat = c.val.toBitVec.toNat := rfl
    exact Or.inr (by omega)

theorem jSkipWs_nonspace (c : Char) (l : List Char)
    (h : jIsSpace c = false) : jSkipWs (c :: l) = c :: l := by
  simp [jSkipWs, h]

theorem jParseVal_print (M : GoNumModel) (fuel : Nat) (n : M.Num)
    (rest : List Char) (hrest : jNumDelim rest = true) :
    jParseVal M (fuel + 1) (M.print n ++ rest) = some (.num n, rest) := by
  obtain ⟨c, t, happ, hc⟩ := M.print_head n
  have hlex := M.lex_print n rest hrest
  have hof := M.ofToken_print n
  rw [happ] at hlex hof ⊢
  rw [List.cons_append] at hlex ⊢
  have hn := numHead_toNat c hc
  have h2 : c.toNat = 45 ∨ c.toNat = 48 ∨ c.toNat = 49 ∨ c.toNat = 50 ∨
      c.toNat = 51 ∨ c.toNat = 52 ∨ c.toNat = 53 ∨ c.toNat = 54 ∨
      c.toNat = 55 ∨ c.toNat = 56 ∨ c.toNat = 57 := by omega
  rcases h2 with h | h | h | h | h | h | h | h | h | h | h
  · obtain rfl : c = '-' := char_toNat_inj (by rw [h]; rfl)
    simp [jParseVal, jSkipWs, jIsSpace, jIsDigit, hlex, hof]
  · obtain rfl : c = '0' := char_toNat_inj (by rw [h]; rfl)
    simp [jParseVal, jSkipWs, jIsSpace, jIsDigit, hlex, hof]
  · obtain rfl : c = '1' := char_toNat_inj (by rw [h]; rfl)
    simp [jParseVal, jSkipWs, jIsSpace, jIsDigit, hlex, hof]
  · obtain rfl : c = '2' := char_toNat_inj (by rw [h]; rfl)
    simp [jParseVal, jSkipWs, jIsSpace, jIsDigit, hlex, hof]
  · obtain rfl : c = '3' := char_toNat_inj (by rw [h]; rfl)
    simp [jParseVal, jSkipWs, jIsSpace, jIsDigit, hlex, hof]
  · obtain rfl : c = '4' := char_toNat_inj (by rw [h]; rfl)
    simp [jParseVal, jSkipWs, jIsSpace, jIsDigit, hlex, hof]
  · obtain rfl : c = '5' := char_toNat_inj (by rw [h]; rfl)
    simp [jParseVal, jSkipWs, jIsSpace, jIsDigit, hlex, hof]
  · obtain rfl : c = '6' := char_toNat_inj (by rw [h]; rfl)
    simp [jParseVal, jSkipWs, jIsSpace, jIsDigit, hlex, hof]
  · obtain rfl : c = '7' := char_toNat_inj (by rw [h]; rfl)
    simp [jParseVal, jSkipWs, jIsSpace, jIsDigit, hlex, hof]
  · obtain rfl : c = '8' := char_toNat_inj (by rw [h]; rfl)
    simp [jParseVal, jSkipWs, jIsSpace, jIsDigit, hlex, hof]
  · obtain rfl : c = '9' := char_toNat_inj (by rw [h]; rfl)
    simp [jParseVal, jSkipWs, jIsSpace, jIsDigit, hlex, hof]

theorem jMarshal_head (M : GoNumModel) (j : JVal M.Num) :
    ∃ c t, jMarshal M j = c :: t ∧ jIsSpace c = false ∧
      (c == ']') = false ∧ (c == ',') = false := by
  cases j with
  | null => exact ⟨'n', _, rfl, rfl, rfl, rfl⟩
  | bool b =>
    cases b with
    | true => exact ⟨'t', _, rfl, rfl, rfl, rfl⟩
    | false => exact ⟨'f', _, rfl, rfl, rfl, rfl⟩
  | num n =>
    obtain ⟨c, t, happ, hc⟩ := M.print_head n
    have hn := numHead_toNat c hc
    refine ⟨c, t, by simpa [jMarshal] using happ, ?_, ?_, ?_⟩
    · simp only [jIsSpace, Bool.or_eq_false_iff]
      refine ⟨?_, ?_, ?_, ?_⟩ <;>
        (apply beq_eq_false_iff_ne.mpr; intro hcc; subst hcc; revert hn; decide)
    · apply beq_eq_false_iff_ne.mpr; intro hcc; subst hcc; revert hn; decide
    · apply beq_eq_false_iff_ne.mpr; intro hcc; subst hcc; revert hn; decide
  | str s => exact ⟨'"', _, rfl, rfl, rfl, rfl⟩
  | arr es => exact ⟨'[', _, rfl, rfl, rfl, rfl⟩
  | obj ms => exact ⟨'\x7b', _, rfl, rfl, rfl, rfl⟩

theorem jMarshal_length_pos (M : GoNumModel) (j : JVal M.Num) :
    1 ≤ (jMarshal M j).length := by
  obtain ⟨c, t, h, -, -, -⟩ := jMarshal_head M j
  simp [h]

theorem jMarshalElems_head (M : GoNumModel) (e : JVal M.Num)
    (es : List (JVal M.Num)) :
    ∃ c t, jMarshalElems M (e :: es) = c :: t ∧ jIsSpace c = false ∧
      (c == ']') = false := by
  obtain ⟨c, t, h, hsp, hbr, -⟩ := jMarshal_head M e
  cases es with
  | nil => exact ⟨c, t, by simp [jMarshalElems, h], hsp, hbr⟩
  | cons e2 es' =>
    exact ⟨c, t ++ ',' :: jMarshalElems M (e2 :: es'),
      by simp [jMarshalElems, h], hsp, hbr⟩

theorem jMarshalMembers_head (M : GoNumModel) (k : List Char)
    (v : JVal M.Num) (ms : List (List Char × JVal M.Num)) :
    ∃ t, jMarshalMembers M ((k, v) :: ms) = '"' :: t := by
  cases ms with
  | nil =>
    exact ⟨k.flatMap jEscapeChar ++ '"' :: ':' :: jMarshal M v,
      by simp [jMarshalMembers, jMarshalString]⟩
  | cons m2 ms' =>
    exact ⟨k.flatMap jEscapeChar ++
        '"' :: ':' :: (jMarshal M v ++ ',' :: jMarshalMembers M (m2 :: ms')),
      by simp [jMarshalMembers, jMarshalString]⟩

theorem jParseVal_bracket (M : GoNumModel) (fuel : Nat) (r : List Char) :
    jParseVal M (fuel + 1) ('[' :: r) =
      (match jSkipWs r with
       | ']' :: r' => some (JVal.arr [], r')
       | cs' =>
         match jParseElems M fuel cs' with
         | some (es, rest) => some (JVal.arr es, rest)
         | none => none) := rfl

theorem jParseVal_brace (M : GoNumModel) (fuel : Nat) (r : List Char) :
    jParseVal M (fuel + 1) ('\x7b' :: r) =
      (match jSkipWs r with
       | '\x7d' :: r' => some (JVal.obj [], r')
       | cs' =>
         match jParseMembers M fuel [] cs' with
         | some (ms, rest) => some (JVal.obj ms, rest)
         | none => none) := rfl

theorem jParseMembers_quote (M : GoNumModel) (fuel : Nat)
    (acc : List (List Char × JVal M.Num)) (r : List Char) :
    jParseMembers M (fuel + 1) acc ('"' :: r) =
      (match jLexStringBody r with
       | none => none
       | some (key, r1) =>
         match jSkipWs r1 with
         | ':' :: r2 =>
           match jParseVal M fuel r2 with
           | none => none
           | some (v, r3) =>
             match jSkipWs r3 with
             | ',' :: r4 => jParseMembers M fuel (objInsert key v acc) r4
             | '\x7d' :: r4 => some (objInsert key v acc, r4)
             | _ => none
         | _ => none) := rfl

/-- one `"key":value` member of a rendered object parses back to an
`objInsert`, handing control to the continuation on the tail -/
theorem jParseMembers_step (M : GoNumModel) (fuel : Nat)
    (acc : List (List Char × JVal M.Num)) (k : List Char)
    (v : JVal M.Num) (tail : List Char) :
    jParseMembers M (fuel + 1) acc
      ('"' :: (k.flatMap jEscapeChar ++ '"' :: ':' :: (jMarshal M v ++ tail)))
      = (match jParseVal M fuel (jMarshal M v ++ tail) with
         | none => none
         | some (v', r3) =>
           match jSkipWs r3 with
           | ',' :: r4 => jParseMembers M fuel (objInsert k v' acc) r4
           | '\x7d' :: r4 => some (objInsert k v' acc, r4)
           | _ => none) := by
  rw [jParseMembers_quote, jLexStringBody_flatMap]
  simp only []
  rw [jSkipWs_nonspace ':' _ (by decide)]
  rfl

mutual

/-- Parsing the rendering of a well-formed value recovers the value and
leaves exactly the trailing input. -/
theorem jParseVal_marshal (M : GoNumModel) :
    ∀ fuel (j : JVal M.Num) rest, jWF M j = true → jNumDelim rest = true →
      (jMarshal M j).length + 1 ≤ fuel →
      jParseVal M fuel (jMarshal M j ++ rest) = some (j, rest)
  | 0, j, rest, _, _, hfuel => absurd hfuel (by omega)
  | fuel + 1, j, rest, hwf, hrest, hfuel => by
    cases j with
    | null => simp [jMarshal, jParseVal, jSkipWs, jIsSpace]
    | bool b => cases b <;> simp [jMarshal, jParseVal, jSkipWs, jIsSpace]
    | num n =>
      rw [show jMarshal M (.num n) = M.print n from by simp [jMarshal]]
      exact jParseVal_print M fuel n rest hrest
    | str s =>
      simp only [jMarshal, jMarshalString]
      rw [List.cons_append, List.append_assoc, List.singleton_append]
      simp [jParseVal, jSkipWs, jIsSpace, jLexStringBody_flatMap]
    | arr es =>
      cases es with
      | nil => simp [jMarshal, jMarshalElems, jParseVal, jSkipWs, jIsSpace]
      | cons e es' =>
        have hwfe : jWFElems M (e :: es') = true := by simpa [jWF] using hwf
        have hfl : (jMarshalElems M (e :: es')).length + 2 ≤ fuel := by
          simp only [jMarshal, List.length_cons, List.length_append,
            List.length_singleton] at hfuel
          omega
        simp only [jMarshal]
        rw [List.cons_append, List.append_assoc, List.singleton_append,
          jParseVal_bracket]
        obtain ⟨c, t, hme, hsp, hbr⟩ := jMarshalElems_head M e es'
        rw [hme, List.cons_append, jSkipWs_nonspace c _ hsp,
          ← List.cons_append, ← hme]
        split
        · rename_i r' heq
          rw [hme, List.cons_append] at heq
          injection heq with h1 h2
          exact absurd h1 (by simpa using hbr)
        · rw [jParseElems_marshal M fuel (e :: es') rest (by simp) hwfe hfl]
    | obj ms =>
      cases ms with
      | nil => simp [jMarshal, jMarshalMembers, jParseVal, jSkipWs, jIsSpace]
      | cons m ms' =>
        obtain ⟨k, v⟩ := m
        rw [show jWF M (.obj ((k, v) :: ms')) =
          (keysSorted ((k, v) :: ms') && jWFMembers M ((k, v) :: ms'))
          from rfl, Bool.and_eq_true] at hwf
        have hfl : (jMarshalMembers M ((k, v) :: ms')).length + 2 ≤ fuel := by
          simp only [jMarshal, List.length_cons, List.length_append,
            List.length_singleton] at hfuel
          omega
        simp only [jMarshal]
        rw [List.cons_append, List.append_assoc, List.singleton_append,
          jParseVal_brace]
        obtain ⟨t, hmm⟩ := jMarshalMembers_head M k v ms'
        rw [hmm, List.cons_append, jSkipWs_nonspace '"' _ (by decide),
          ← List.cons_append, ← hmm]
        split
        · rename_i r' heq
          rw [hmm, List.cons_append] at heq
          injection heq with h1 h2
          exact absurd h1 (by decide)
        · rw [jParseMembers_marshal M fuel [] ((k, v) :: ms') rest (by simp)
            hwf.1 hwf.2 (by simp) hfl]
          simp

/-- Parsing the rendering of a non-empty well-formed element list, with
the closing bracket appended, recovers the list. -/
theorem jParseElems_marshal (M : GoNumModel) :
    ∀ fuel (es : List (JVal M.Num)) rest, es ≠ [] →
      jWFElems M es = true →
      (jMarshalElems M es).length + 2 ≤ fuel →
      jParseElems M fuel (jMarshalElems M es ++ ']' :: rest) = some (es, rest)
  | 0, es, rest, _, _, hfuel => absurd hfuel (by omega)
  | fuel + 1, es, rest, hne, hwf, hfuel => by
    cases es with
    | nil => exact absurd rfl hne
    | cons e es' =>
      rw [show jWFElems M (e :: es') = (jWF M e && jWFElems M es')
        from rfl, Bool.and_eq_true] at hwf
      cases es' with
      | nil =>
        simp only [jMarshalElems] at hfuel ⊢
        simp only [jParseElems]
        rw [jParseVal_marshal M fuel e (']' :: rest) hwf.1
          (by simp [jNumDelim, jIsDigit]) (by omega)]
        simp only []
        rw [jSkipWs_nonspace ']' _ (by decide)]
        rfl
      | cons e2 es'' =>
        have hpos := jMarshal_length_pos M e
        simp only [jMarshalElems] at hfuel ⊢
        simp only [List.length_append, List.length_cons] at hfuel
        rw [List.append_assoc, List.cons_append]
        simp only [jParseElems]
        rw [jParseVal_marshal M fuel e
          (',' :: (jMarshalElems M (e2 :: es'') ++ ']' :: rest)) hwf.1
          (by simp [jNumDelim, jIsDigit]) (by omega)]
        simp only []
        rw [jSkipWs_nonspace ',' _ (by decide)]
        simp only []
        rw [jParseElems_marshal M fuel (e2 :: es'') rest (by simp)
          hwf.2 (by omega)]

/-- Parsing the rendering of a non-empty sorted member list, with the
closing brace appended, appends the members to the accumulator. -/
theorem jParseMembers_marshal (M : GoNumModel) :
    ∀ fuel acc (ms : List (List Char × JVal M.Num)) rest, ms ≠ [] →
      keysSorted ms = true → jWFMembers M ms = true →
      (∀ p ∈ acc, keyLtHead p.1 ms = true) →
      (jMarshalMembers M ms).length + 2 ≤ fuel →
      jParseMembers M fuel acc (jMarshalMembers M ms ++ '\x7d' :: rest)
        = some (acc ++ ms, rest)
  | 0, acc, ms, rest, _, _, _, _, hfuel => absurd hfuel (by omega)
  | fuel + 1, acc, ms, rest, hne, hsort, hwf, hacc, hfuel => by
    cases ms with
    | nil => exact absurd rfl hne
    | cons m ms' =>
      obtain ⟨k, v⟩ := m
      rw [show keysSorted ((k, v) :: ms') =
        (keyLtHead k ms' && keysSorted ms') from rfl,
        Bool.and_eq_true] at hsort
      rw [show jWFMembers M ((k, v) :: ms') = (jWF M v && jWFMembers M ms')
        from rfl, Bool.and_eq_true] at hwf
      have hacck : ∀ p ∈ acc, keyLt p.1 k = true := fun p hp => by
        simpa [keyLtHead] using hacc p hp
      have hpos := jMarshal_length_pos M v
      cases ms' with
      | nil =>
        simp only [jMarshalMembers, jMarshalString] at hfuel ⊢
        simp only [List.length_append, List.length_cons,
          List.length_singleton, List.length_nil] at hfuel
        simp only [List.append_assoc, List.cons_append,
          List.singleton_append, List.nil_append]
        rw [jParseMembers_step]
        rw [jParseVal_marshal M fuel v ('\x7d' :: rest) hwf.1
          (by simp [jNumDelim, jIsDigit]) (by omega)]
        simp only []
        rw [jSkipWs_nonspace '\x7d' _ (by decide)]
        simp only []
        rw [objInsert_append k v acc hacck]
      | cons m2 ms'' =>
        obtain ⟨k2, v2⟩ := m2
        have hkk2 : keyLt k k2 = true := by
          simpa [keyLtHead] using hsort.1
        have hacc2 : ∀ p ∈ acc ++ [(k, v)],
            keyLtHead p.1 ((k2, v2) :: ms'') = true := by
          intro p hp
          rcases List.mem_append.mp hp with hp | hp
          · have h1 := hacck p hp
            simpa [keyLtHead] using keyLt_trans _ _ _ h1 hkk2
          · simp only [List.mem_singleton] at hp
            subst hp
            simpa [keyLtHead] using hkk2
        simp only [jMarshalMembers, jMarshalString] at hfuel ⊢
        simp only [List.length_append, List.length_cons,
          List.length_singleton, List.length_nil] at hfuel
        simp only [List.append_assoc, List.cons_append,
          List.singleton_append, List.nil_append]
        rw [jParseMembers_step]
        rw [jParseVal_marshal M fuel v
          (',' :: (jMarshalMembers M ((k2, v2) :: ms'') ++ '\x7d' :: rest))
          hwf.1 (by simp [jNumDelim, jIsDigit]) (by omega)]
        simp only []
        rw [jSkipWs_nonspace ',' _ (by decide)]
        simp only []
        rw [objInsert_append k v acc hacck]
        rw [jParseMembers_marshal M fuel (acc ++ [(k, v)]) ((k2, v2) :: ms'')
          rest (by simp) hsort.2 hwf.2 hacc2 (by omega)]
        simp

end


/-- whatever `jUnmarshal` produces is well-formed -/
theorem jUnmarshal_wf (M : GoNumModel) (cs : List Char) (j : JVal M.Num)
    (h : jUnmarshal M cs = some j) : jWF M j = true := by
  simp only [jUnmarshal] at h
  split at h
  · rename_i v rest hp
    split at h
    · cases h
      exact jParseVal_wf M _ _ _ _ hp
    · cases h
  · cases h

/-- re-parsing a rendering of well-formed Unmarshal output gives the
same value back -/
theorem jUnmarshal_marshal (M : GoNumModel) (j : JVal M.Num)
    (h : jWF M j = true) : jUnmarshal M (jMarshal M j) = some j := by
  have hp := jParseVal_marshal M ((jMarshal M j).length + 1) j [] h rfl
    (le_refl _)
  rw [List.append_nil] at hp
  simp only [jUnmarshal, hp]
  simp [jSkipWs]

/-- C10: `NormalizeJsonString` is idempotent on its successes: whenever
it maps a string `s` to a result `r` without error, it maps `r` to `r`
without error; and on `nil` or empty input it returns the empty string
without error.  Proven for every number model satisfying the `strconv`
round-trip guarantees (parse a printed float back to the same float,
print in a form that lexes as one numeric token). -/
theorem normalizeJsonString_idempotent (M : GoNumModel) :
    (∀ s r, NormalizeJsonString M (some s) = .ok r →
      NormalizeJsonString M (some r) = .ok r) ∧
    NormalizeJsonString M none = .ok "" ∧
    NormalizeJsonString M (some "") = .ok "" := by
  refine ⟨?_, rfl, rfl⟩
  intro s r h
  by_cases hs : s = ""
  · subst hs
    simp only [NormalizeJsonString, if_pos rfl] at h
    cases h
    rfl
  · simp only [NormalizeJsonString, if_neg hs] at h
    split at h
    · cases h
    · rename_i j hj
      cases h
      by_cases hr : String.mk (jMarshal M j) = ""
      · simp only [NormalizeJsonString, if_pos hr, hr]
        simp
      · simp only [NormalizeJsonString, if_neg hr]
        rw [show (String.mk (jMarshal M j)).toList = jMarshal M j from rfl,
          jUnmarshal_marshal M j (jUnmarshal_wf M s.toList j hj)]

/-- concrete run: normalising a spaced, unsorted object yields a compact
sorted rendering, and normalising that rendering returns it unchanged -/
theorem normalizeJsonString_idempotent_witness :
    NormalizeJsonString unitNumModel
      (some "\x7b\"a\":[true,null,\"x\"],\"b\":0\x7d")
      = .ok "\x7b\"a\":[true,null,\"x\"],\"b\":0\x7d" :=
  (normalizeJsonString_idempotent unitNumModel).1
    "\x7b\"b\" : 1, \"a\": [true, null, \"x\"]\x7d"
    "\x7b\"a\":[true,null,\"x\"],\"b\":0\x7d"
    (by simp [NormalizeJsonString, jUnmarshal, jParseVal, jParseElems,
      jParseMembers, jSkipWs, jIsSpace, jIsDigit, jLexStringBody, jLexNumber,
      jLexFrac, jLexExp, jTakeDigits, jUnescape, jHex4, jHexVal, jConsRes,
      jLexU, objInsert, keyLt, unitNumModel, jMarshal, jMarshalMembers,
      jMarshalElems, jMarshalString, jEscapeChar, jHexDigit, jNumDelim])

end StorageBucket
